import Mathlib

/-!
Verification of the ESPHome Touch Designer compiler
(`custom_components/esphome_touch_designer/api/views.py`).

Text is modelled as `List Char` (`Str`).  Python string operations used by the
compiler (`in`, `count`, `find`, `replace`, `splitlines`, `strip`, ...) are
re-implemented below with matching semantics and the compiler functions are
translated one-to-one from the source.
-/

set_option maxHeartbeats 1000000
set_option maxRecDepth 100000

abbrev Str := List Char

def strL (s : String) : Str := s.toList

/-- Python substring test helper: is `n` a prefix of `h`? -/
def isPreB : Str → Str → Bool
  | [], _ => true
  | _ :: _, [] => false
  | a :: as, b :: bs => a == b && isPreB as bs

/-- Python `str.endswith` (suffix test). -/
def isSufB (a b : Str) : Bool := isPreB a.reverse b.reverse

/-- Python `n in h` (substring containment). -/
def containsB (n : Str) : Str → Bool
  | [] => isPreB n []
  | c :: t => isPreB n (c :: t) || containsB n t

/-- Fuel-driven worker for `countOccur` (fuel `h.length` always suffices). -/
def countOccurF (n : Str) : Nat → Str → Nat
  | _, [] => 0
  | 0, _ :: _ => 0
  | fuel + 1, c :: t =>
    if isPreB n (c :: t) then 1 + countOccurF n fuel ((c :: t).drop n.length)
    else countOccurF n fuel t

/-- Python `h.count(n)`: number of non-overlapping occurrences, scanning left to right. -/
def countOccur (n h : Str) : Nat :=
  if n.isEmpty then h.length + 1 else countOccurF n h.length h

/-- Python `h.find(n)` (index of first occurrence), as an `Option`. -/
def findSub (n : Str) : Str → Option Nat
  | [] => if isPreB n [] then some 0 else none
  | c :: t => if isPreB n (c :: t) then some 0 else (findSub n t).map (· + 1)

theorem isPreB_length {n h : Str} (hp : isPreB n h = true) : n.length ≤ h.length := by
  induction n generalizing h with
  | nil => simp
  | cons a as ih =>
    cases h with
    | nil => simp [isPreB] at hp
    | cons b bs =>
      simp only [isPreB, Bool.and_eq_true] at hp
      simpa using Nat.succ_le_succ (ih hp.2)

/-- Fuel-driven worker for `replaceAll` (fuel `h.length` always suffices). -/
def replaceAllF (n r : Str) : Nat → Str → Str
  | _, [] => []
  | 0, c :: t => c :: t
  | fuel + 1, c :: t =>
    if isPreB n (c :: t) then r ++ replaceAllF n r fuel ((c :: t).drop n.length)
    else c :: replaceAllF n r fuel t

/-- Python `h.replace(n, r)`: replace every (non-overlapping) occurrence. -/
def replaceAll (n r : Str) (h : Str) : Str :=
  if n.isEmpty then r ++ h.flatMap (fun c => c :: r) else replaceAllF n r h.length h

/-- Python `s.splitlines()` worker (only `\n`, `\r\n`, `\r` separators occur in the data). -/
def splitLinesAux : Str → Str → List Str
  | [], cur => [cur.reverse]
  | '\r' :: '\n' :: t, cur => cur.reverse :: (if t.isEmpty then [] else splitLinesAux t [])
  | '\r' :: t, cur => cur.reverse :: (if t.isEmpty then [] else splitLinesAux t [])
  | '\n' :: t, cur => cur.reverse :: (if t.isEmpty then [] else splitLinesAux t [])
  | c :: t, cur => splitLinesAux t (c :: cur)

/-- Python `s.splitlines()`. -/
def splitLines (s : Str) : List Str := if s.isEmpty then [] else splitLinesAux s []

/-- `"\n".join ls`. -/
def joinNl : List Str → Str
  | [] => []
  | [l] => l
  | l :: rest => l ++ '\n' :: joinNl rest

def isPySpace (c : Char) : Bool :=
  c == ' ' || c == '\t' || c == '\n' || c == '\r' || c == Char.ofNat 11 || c == Char.ofNat 12

def lstripW (s : Str) : Str := s.dropWhile isPySpace

def rstripW (s : Str) : Str := (s.reverse.dropWhile isPySpace).reverse

def stripW (s : Str) : Str := lstripW (rstripW s)

/-! ### The safe-merge engine (`_safe_merge_markers`, views.py:1288-1328) -/

def beginMarker : Str := strL "# --- BEGIN ESPHOME_TOUCH_DESIGNER GENERATED ---"

def endMarker : Str := strL "# --- END ESPHOME_TOUCH_DESIGNER GENERATED ---"

/-- `if before and not before.endswith("\n"): before += "\n"` -/
def nlAppendFix (s : Str) : Str :=
  if !s.isEmpty && !(isSufB (strL "\n") s) then s ++ ['\n'] else s

/-- `if after and not after.startswith("\n"): after = "\n" + after` -/
def nlPreFix (s : Str) : Str :=
  if !s.isEmpty && !(isPreB (strL "\n") s) then '\n' :: s else s

/-- `if existing_text and not existing_text.endswith("\n\n"): existing_text += "\n"` -/
def ensureBlankLine (s : Str) : Str :=
  if !s.isEmpty && !(isSufB (strL "\n\n") s) then s ++ ['\n'] else s

def safeMerge (existing gen : Str) : Except String Str :=
  if !(containsB beginMarker gen) || !(containsB endMarker gen) then
    .error "generated_block_missing_markers"
  else
    let bcount := countOccur beginMarker existing
    let ecount := countOccur endMarker existing
    if bcount = 0 ∧ ecount = 0 then
      .ok (ensureBlankLine (nlAppendFix existing) ++ gen)
    else if bcount ≠ 1 ∨ ecount ≠ 1 then
      .error (s!"marker_count_mismatch begin={bcount} end={ecount}")
    else
      match findSub beginMarker existing, findSub endMarker existing with
      | some bidx, some eidx =>
        if eidx < bidx then .error "marker_order_invalid"
        else
          let before := existing.take bidx
          let after := existing.drop (eidx + endMarker.length)
          .ok (nlAppendFix before ++ gen ++ nlPreFix after)
      | _, _ => .error "marker_not_found"

/-- Result projection used to state facts about successful merges. -/
def okOf : Except String Str → Option Str
  | .ok s => some s
  | .error _ => none

/-- The output shape asserted by the spec for the zero-marker append case:
existing text followed by the block with exactly one blank line in between
(trailing newlines of the prior content normalized away). -/
def claimedAppendOutput (existing gen : Str) : Str :=
  if existing.isEmpty then gen
  else (existing.reverse.dropWhile (· == '\n')).reverse ++ strL "\n\n" ++ gen

/-- C3: with a well-formed generated block, if the marker counts in the existing
text are neither (0,0) nor (1,1), or they are (1,1) but the first end marker
precedes the first begin marker, `_safe_merge_markers` raises
`marker_count_mismatch` or `marker_order_invalid` and returns no merged text. -/
theorem claim3_safeMerge_structural_errors (existing gen : Str)
    (hg1 : containsB beginMarker gen = true) (hg2 : containsB endMarker gen = true)
    (h : (¬ (countOccur beginMarker existing = 0 ∧ countOccur endMarker existing = 0) ∧
          ¬ (countOccur beginMarker existing = 1 ∧ countOccur endMarker existing = 1)) ∨
         (countOccur beginMarker existing = 1 ∧ countOccur endMarker existing = 1 ∧
          ∃ b e, findSub beginMarker existing = some b ∧ findSub endMarker existing = some e ∧
            e < b)) :
    safeMerge existing gen =
      .error (s!"marker_count_mismatch begin={countOccur beginMarker existing} end={countOccur endMarker existing}") ∨
    safeMerge existing gen = .error "marker_order_invalid" := by
  unfold safeMerge
  rw [hg1, hg2]
  simp only [Bool.not_true, Bool.or_self, Bool.false_eq_true, if_false]
  rcases h with ⟨h00, h11⟩ | ⟨hb1, he1, b, e, hfb, hfe, hlt⟩
  · rw [if_neg h00, if_pos]
    · exact Or.inl rfl
    · by_contra hc
      push_neg at hc
      exact h11 ⟨hc.1, hc.2⟩
  · have h1 : ¬ (countOccur beginMarker existing = 0 ∧ countOccur endMarker existing = 0) := by
      rw [hb1]
      rintro ⟨hc, -⟩
      exact one_ne_zero hc
    have h2 : ¬ (countOccur beginMarker existing ≠ 1 ∨ countOccur endMarker existing ≠ 1) := by
      push_neg
      exact ⟨hb1, he1⟩
    rw [if_neg h1, if_neg h2, hfb, hfe]
    right
    simp [hlt]

def ex3 : Str := beginMarker ++ '\n' :: beginMarker ++ '\n' :: endMarker

def gen3 : Str := beginMarker ++ '\n' :: endMarker ++ ['\n']

/-- Witness for C3 at concrete inputs (two begin markers, one end marker). -/
theorem claim3_witness :
    (containsB beginMarker gen3 = true ∧
     containsB endMarker gen3 = true ∧
     ¬ (countOccur beginMarker ex3 = 0 ∧ countOccur endMarker ex3 = 0) ∧
     ¬ (countOccur beginMarker ex3 = 1 ∧ countOccur endMarker ex3 = 1)) ∧
    (safeMerge ex3 gen3 =
      .error (s!"marker_count_mismatch begin={countOccur beginMarker ex3} end={countOccur endMarker ex3}") ∨
     safeMerge ex3 gen3 = .error "marker_order_invalid") :=
  ⟨⟨by decide, by decide, by decide, by decide⟩,
   claim3_safeMerge_structural_errors _ _ (by decide) (by decide)
     (Or.inl ⟨by decide, by decide⟩)⟩

theorem strL_nl : strL "\n" = ['\n'] := rfl

theorem strL_nl2 : strL "\n\n" = ['\n', '\n'] := rfl

/-- C4: with exactly one begin and one end marker (begin first), the merge result
is the text before the begin marker, the generated block, then the text after the
end marker, the only change to the surroundings being newline normalization at
the two seams (`nlAppendFix` / `nlPreFix`); everything between and including the
old markers is replaced. -/
theorem claim4_safeMerge_replaces_bounded_region (existing gen : Str)
    (hg1 : containsB beginMarker gen = true) (hg2 : containsB endMarker gen = true)
    (hb : countOccur beginMarker existing = 1) (he : countOccur endMarker existing = 1)
    (b e : Nat) (hfb : findSub beginMarker existing = some b)
    (hfe : findSub endMarker existing = some e) (hle : ¬ e < b) :
    safeMerge existing gen =
      .ok (nlAppendFix (existing.take b) ++ gen ++
        nlPreFix (existing.drop (e + endMarker.length))) := by
  unfold safeMerge
  rw [hg1, hg2]
  simp only [Bool.not_true, Bool.or_self, Bool.false_eq_true, if_false]
  have h1 : ¬ (countOccur beginMarker existing = 0 ∧ countOccur endMarker existing = 0) := by
    rw [hb]
    rintro ⟨hc, -⟩
    exact one_ne_zero hc
  have h2 : ¬ (countOccur beginMarker existing ≠ 1 ∨ countOccur endMarker existing ≠ 1) := by
    push_neg
    exact ⟨hb, he⟩
  rw [if_neg h1, if_neg h2, hfb, hfe]
  simp [hle]

/-- Witness for C4: replace the bounded region in a file with user text around it. -/
theorem claim4_witness :
    (containsB beginMarker (beginMarker ++ '\n' :: endMarker ++ ['\n']) = true ∧
     containsB endMarker (beginMarker ++ '\n' :: endMarker ++ ['\n']) = true ∧
     countOccur beginMarker
       (strL "user: 1\n" ++ beginMarker ++ '\n' :: strL "old\n" ++ endMarker ++ strL "\ntail: 2\n") = 1 ∧
     countOccur endMarker
       (strL "user: 1\n" ++ beginMarker ++ '\n' :: strL "old\n" ++ endMarker ++ strL "\ntail: 2\n") = 1 ∧
     findSub beginMarker
       (strL "user: 1\n" ++ beginMarker ++ '\n' :: strL "old\n" ++ endMarker ++ strL "\ntail: 2\n") = some 8 ∧
     findSub endMarker
       (strL "user: 1\n" ++ beginMarker ++ '\n' :: strL "old\n" ++ endMarker ++ strL "\ntail: 2\n") = some 61 ∧
     ¬ (61 < 8)) ∧
    safeMerge
        (strL "user: 1\n" ++ beginMarker ++ '\n' :: strL "old\n" ++ endMarker ++ strL "\ntail: 2\n")
        (beginMarker ++ '\n' :: endMarker ++ ['\n']) =
      .ok (nlAppendFix
            ((strL "user: 1\n" ++ beginMarker ++ '\n' :: strL "old\n" ++ endMarker ++ strL "\ntail: 2\n").take 8) ++
          (beginMarker ++ '\n' :: endMarker ++ ['\n']) ++
          nlPreFix
            ((strL "user: 1\n" ++ beginMarker ++ '\n' :: strL "old\n" ++ endMarker ++ strL "\ntail: 2\n").drop
              (61 + endMarker.length))) :=
  ⟨⟨by decide, by decide, by decide, by decide, by decide, by decide, by decide⟩,
   claim4_safeMerge_replaces_bounded_region _ _ (by decide) (by decide) (by decide) (by decide)
     8 61 (by decide) (by decide) (by decide)⟩

/-- C5 counterexample: for an existing text already ending in two blank lines
(`"a\n\n\n"`), the code appends nothing and keeps both blank lines, so the
result is NOT the existing content separated from the block by exactly one
blank line as the claim states. -/
theorem claim5_counterexample :
    okOf (safeMerge (strL "a\n\n\n") (beginMarker ++ '\n' :: endMarker ++ ['\n'])) =
      some (strL "a\n\n\n" ++ (beginMarker ++ '\n' :: endMarker ++ ['\n'])) ∧
    strL "a\n\n\n" ++ (beginMarker ++ '\n' :: endMarker ++ ['\n']) ≠
      claimedAppendOutput (strL "a\n\n\n") (beginMarker ++ '\n' :: endMarker ++ ['\n']) :=
  ⟨by decide, by decide⟩

theorem isSufB_nl_append (s : Str) : isSufB (strL "\n") (s ++ ['\n']) = true := by
  simp [isSufB, strL_nl, List.reverse_append, isPreB]

theorem isSufB_nl2_append (s : Str) :
    isSufB (strL "\n\n") (s ++ ['\n']) = isSufB (strL "\n") s := by
  simp [isSufB, strL_nl, strL_nl2, List.reverse_append, isPreB]

/-- C5 (amended): when the existing text has no markers, the result is the
existing text with at most two newlines appended — enough to make it end in a
blank line — followed by the generated block; pre-existing extra blank lines
are preserved (so the separation is at least, not exactly, one blank line).
An empty existing text yields the generated block alone. -/
theorem claim5_amended_append (existing gen : Str)
    (hg1 : containsB beginMarker gen = true) (hg2 : containsB endMarker gen = true)
    (h0b : countOccur beginMarker existing = 0) (h0e : countOccur endMarker existing = 0) :
    safeMerge existing gen = .ok (ensureBlankLine (nlAppendFix existing) ++ gen) ∧
    (existing = [] → safeMerge existing gen = .ok gen) ∧
    (existing ≠ [] → isSufB (strL "\n\n") (ensureBlankLine (nlAppendFix existing)) = true) ∧
    (∃ pad, (pad = [] ∨ pad = ['\n'] ∨ pad = ['\n', '\n']) ∧
      ensureBlankLine (nlAppendFix existing) = existing ++ pad) := by
  have hmain : safeMerge existing gen = .ok (ensureBlankLine (nlAppendFix existing) ++ gen) := by
    unfold safeMerge
    rw [hg1, hg2]
    simp only [Bool.not_true, Bool.or_self, Bool.false_eq_true, if_false]
    rw [if_pos ⟨h0b, h0e⟩]
  have hshape : (existing ≠ [] → isSufB (strL "\n\n") (ensureBlankLine (nlAppendFix existing)) = true) ∧
      (∃ pad, (pad = [] ∨ pad = ['\n'] ∨ pad = ['\n', '\n']) ∧
        ensureBlankLine (nlAppendFix existing) = existing ++ pad) := by
    cases hex : existing with
    | nil =>
      refine ⟨fun hc => absurd rfl hc, [], Or.inl rfl, ?_⟩
      simp [nlAppendFix, ensureBlankLine]
    | cons c t =>
      have hne' : (c :: t).isEmpty = false := rfl
      by_cases hA : isSufB (strL "\n") (c :: t) = true
      · rw [nlAppendFix, if_neg (by simp [hA])]
        by_cases hB : isSufB (strL "\n\n") (c :: t) = true
        · rw [ensureBlankLine, if_neg (by simp [hB])]
          exact ⟨fun _ => hB, [], Or.inl rfl, by simp⟩
        · rw [ensureBlankLine, if_pos (by simp [hB])]
          refine ⟨fun _ => ?_, ['\n'], Or.inr (Or.inl rfl), rfl⟩
          rw [isSufB_nl2_append]
          exact hA
      · rw [nlAppendFix, if_pos (by simp [hA])]
        have hA2 : isSufB (strL "\n\n") ((c :: t) ++ ['\n']) = false := by
          rw [isSufB_nl2_append]
          exact Bool.not_eq_true _ ▸ eq_false_of_ne_true hA
        rw [ensureBlankLine, if_pos (by simp only [List.cons_append] at hA2; simp [hA2])]
        refine ⟨fun _ => ?_, ['\n', '\n'], Or.inr (Or.inr rfl), by simp⟩
        rw [isSufB_nl2_append]
        exact isSufB_nl_append _
  refine ⟨hmain, fun hemp => ?_, hshape.1, hshape.2⟩
  subst hemp
  simpa [nlAppendFix, ensureBlankLine] using hmain

/-- Witness for the amended C5 at concrete inputs. -/
theorem claim5_amended_witness :
    (containsB beginMarker (beginMarker ++ '\n' :: endMarker ++ ['\n']) = true ∧
     containsB endMarker (beginMarker ++ '\n' :: endMarker ++ ['\n']) = true ∧
     countOccur beginMarker (strL "light: on\n") = 0 ∧
     countOccur endMarker (strL "light: on\n") = 0) ∧
    (safeMerge (strL "light: on\n") (beginMarker ++ '\n' :: endMarker ++ ['\n']) =
       .ok (ensureBlankLine (nlAppendFix (strL "light: on\n")) ++
         (beginMarker ++ '\n' :: endMarker ++ ['\n'])) ∧
     (strL "light: on\n" = [] →
       safeMerge (strL "light: on\n") (beginMarker ++ '\n' :: endMarker ++ ['\n']) =
         .ok (beginMarker ++ '\n' :: endMarker ++ ['\n'])) ∧
     (strL "light: on\n" ≠ [] →
       isSufB (strL "\n\n") (ensureBlankLine (nlAppendFix (strL "light: on\n"))) = true) ∧
     (∃ pad, (pad = [] ∨ pad = ['\n'] ∨ pad = ['\n', '\n']) ∧
       ensureBlankLine (nlAppendFix (strL "light: on\n")) = strL "light: on\n" ++ pad)) :=
  ⟨⟨by decide, by decide, by decide, by decide⟩,
   claim5_amended_append _ _ (by decide) (by decide) (by decide) (by decide)⟩

/-! ### JSON-ish value model and Python rendering helpers -/

/-- JSON-shaped values as stored in the project model. -/
inductive Value where
  | null
  | bool (b : Bool)
  | int (n : Int)
  | float (q : Rat)
  | str (s : Str)
  | list (items : List Value)
  | dict (items : List (Str × Value))

/-- Python `v in (None, "")`. -/
def Value.isNoneOrEmptyStr : Value → Bool
  | .null => true
  | .str [] => true
  | _ => false

def pow10 (k : Nat) : Nat := 10 ^ k

/-- Smallest exponent `k ≤ 17` with `den ∣ 10^k` (JSON/config floats are short decimals). -/
def decExp (den : Nat) : Option Nat := (List.range 18).find? (fun k => pow10 k % den == 0)

def padLeftZeros (k : Nat) (s : Str) : Str := List.replicate (k - s.length) '0' ++ s

/-- Models CPython `str(float(x))` for the short decimal values that appear in
projects (e.g. `0.5` → `"0.5"`, `2` → `"2.0"`). -/
def floatStr (q : Rat) : Str :=
  let sign : Str := if q.num < 0 then ['-'] else []
  let n := q.num.natAbs
  let d := q.den
  match decExp d with
  | some 0 => sign ++ strL (toString n) ++ strL ".0"
  | some k =>
    let scaled := n * (pow10 k / d)
    let ip := scaled / pow10 k
    let fp := scaled % pow10 k
    let fpTrim := ((padLeftZeros k (strL (toString fp))).reverse.dropWhile (· == '0')).reverse
    sign ++ strL (toString ip) ++ '.' :: (if fpTrim.isEmpty then ['0'] else fpTrim)
  | none => sign ++ strL (toString n) ++ '/' :: strL (toString d)

def hexDigit : Nat → Char
  | 0 => '0' | 1 => '1' | 2 => '2' | 3 => '3' | 4 => '4' | 5 => '5' | 6 => '6' | 7 => '7'
  | 8 => '8' | 9 => '9' | 10 => 'a' | 11 => 'b' | 12 => 'c' | 13 => 'd' | 14 => 'e'
  | 15 => 'f' | _ => '0'

def hex4 (n : Nat) : Str :=
  [hexDigit (n / 4096 % 16), hexDigit (n / 256 % 16), hexDigit (n / 16 % 16), hexDigit (n % 16)]

/-- One character of CPython `json.dumps` string escaping (ensure_ascii=True). -/
def jsonEscChar (c : Char) : Str :=
  if c = '"' then ['\\', '"']
  else if c = '\\' then ['\\', '\\']
  else if c = '\n' then ['\\', 'n']
  else if c = '\t' then ['\\', 't']
  else if c = '\r' then ['\\', 'r']
  else if c = Char.ofNat 8 then ['\\', 'b']
  else if c = Char.ofNat 12 then ['\\', 'f']
  else if 32 ≤ c.toNat && c.toNat ≤ 126 then [c]
  else if c.toNat ≤ 0xffff then '\\' :: 'u' :: hex4 c.toNat
  else
    '\\' :: 'u' :: hex4 (0xd800 + (c.toNat - 0x10000) / 1024) ++
      '\\' :: 'u' :: hex4 (0xdc00 + (c.toNat - 0x10000) % 1024)

/-- Python `json.dumps(s)` for a string. -/
def jsonQuote (s : Str) : Str := '"' :: s.flatMap jsonEscChar ++ ['"']

def joinSep (sep : Str) : List Str → Str
  | [] => []
  | [l] => l
  | l :: rest => l ++ sep ++ joinSep sep rest

mutual

/-- Python `json.dumps(v)` (default separators). -/
def jsonDumpsValue : Value → Str
  | .null => strL "null"
  | .bool true => strL "true"
  | .bool false => strL "false"
  | .int n => strL (toString n)
  | .float q => floatStr q
  | .str s => jsonQuote s
  | .list items => '[' :: joinSep (strL ", ") (jsonDumpsList items) ++ [']']
  | .dict items => '{' :: joinSep (strL ", ") (jsonDumpsPairs items) ++ ['\x7d']

def jsonDumpsList : List Value → List Str
  | [] => []
  | v :: rest => jsonDumpsValue v :: jsonDumpsList rest

def jsonDumpsPairs : List (Str × Value) → List Str
  | [] => []
  | (k, v) :: rest => (jsonQuote k ++ strL ": " ++ jsonDumpsValue v) :: jsonDumpsPairs rest

end

mutual

/-- Python `str(v)` (scalars exact; containers rendered repr-style, only used
for degenerate action-binding data values). -/
def pyStr : Value → Str
  | .null => strL "None"
  | .bool true => strL "True"
  | .bool false => strL "False"
  | .int n => strL (toString n)
  | .float q => floatStr q
  | .str s => s
  | .list items => '[' :: joinSep (strL ", ") (pyReprList items) ++ [']']
  | .dict items => '\x7b' :: joinSep (strL ", ") (pyReprPairs items) ++ ['\x7d']

def pyRepr : Value → Str
  | .str s => '\'' :: s ++ ['\'']
  | v => pyStr v

def pyReprList : List Value → List Str
  | [] => []
  | v :: rest => pyRepr v :: pyReprList rest

def pyReprPairs : List (Str × Value) → List Str
  | [] => []
  | (k, v) :: rest => ('\'' :: k ++ '\'' :: strL ": " ++ pyRepr v) :: pyReprPairs rest

end

/-! ### Identifier sanitization (`_safe_id`, `_slugify_entity_id`) -/

def charIsIdent (c : Char) : Bool :=
  ('a' ≤ c && c ≤ 'z') || ('A' ≤ c && c ≤ 'Z') || ('0' ≤ c && c ≤ '9') || c == '_'

/-- `_safe_id`: `re.sub(r"[^a-zA-Z0-9_]", "_", s)`. -/
def safeId (s : Str) : Str := s.map (fun c => if charIsIdent c then c else '_')

/-- Collapse runs of underscores to a single underscore (`re.sub(r"_+", "_", s)`). -/
def collapseU : Str → Str
  | [] => []
  | [c] => [c]
  | c1 :: c2 :: t =>
    if c1 = '_' && c2 = '_' then collapseU (c2 :: t) else c1 :: collapseU (c2 :: t)

/-- `_slugify_entity_id`: lowercase/strip, map non-identifier runs to `_`,
collapse underscores, strip underscores, fall back to `"entity"`.
(Mapping per character then collapsing runs is equivalent to replacing each
run by one underscore followed by the same collapse.) -/
def slugifyEntityId (eid : Str) : Str :=
  let s1 := (stripW eid).map Char.toLower
  let s2 := s1.map (fun c => if charIsIdent c then c else '_')
  let s3 := (((collapseU s2).dropWhile (· == '_')).reverse.dropWhile (· == '_')).reverse
  if s3.isEmpty then strL "entity" else s3

/-! ### Project data model (§3 of the spec; dict fields default to falsy values) -/

structure Binding where
  kind : Str
  entity_id : Str
  attribute' : Str

structure LinkSource where
  entity_id : Str
  kind : Str
  attribute' : Str

structure LinkTarget where
  widget_id : Str
  action : Str
  scale : Option Value
  format : Str
  yaml_override : Option Str
  condition_expr : Str

structure Link where
  source : LinkSource
  target : LinkTarget

structure Call where
  domain : Str
  service : Str
  entity_id : Str
  data : List (Str × Value)

structure ActionBinding where
  widget_id : Str
  event : Str
  yaml_override : Str
  call : Option Call

structure Script where
  id : Str
  entity_id : Str
  direction : Str
  step : Option Rat

structure Widget where
  id : Str
  type : Str
  x : Option Int
  y : Option Int
  w : Option Int
  h : Option Int
  parent_id : Str
  props : List (Str × Value)
  style : List (Str × Value)
  events : List (Str × Value)
  parts : List (Str × List (Str × Value))

structure Page where
  page_id : Str
  legacy_id : Str
  name : Str
  widgets : List Widget

structure AdvancedCfg where
  yaml_pre : Str
  yaml_post : Str
  markers : List (Str × Str)

structure Project where
  pages : List Page
  bindings : List Binding
  links : List Link
  action_bindings : List ActionBinding
  scripts : List Script
  advanced : AdvancedCfg

structure DeviceProject where
  device_id : Str
  slug : Str
  name : Str
  hardware_recipe_id : Option Str
  api_key : Option Str
  project : Project

/-! ### Binding compiler (`_compile_ha_bindings`, views.py:150-340) -/

/-- Lexicographic `<` on strings (Python string comparison by code point). -/
def strLtB : Str → Str → Bool
  | [], [] => false
  | [], _ :: _ => true
  | _ :: _, [] => false
  | a :: as, b :: bs => if a < b then true else if b < a then false else strLtB as bs

/-- Python tuple `<=` on (kind, entity_id, attribute) sort keys. -/
abbrev BKey := Str × Str × Str

def keyLeB (x y : BKey) : Bool :=
  strLtB x.1 y.1 ||
    (x.1 == y.1 &&
      (strLtB x.2.1 y.2.1 ||
        (x.2.1 == y.2.1 && (strLtB x.2.2 y.2.2 || x.2.2 == y.2.2))))

/-- `(str(x.get('kind') or 'state'), str(x.get('entity_id') or ''), str(x.get('attribute') or ''))` -/
def bindingKey (b : Binding) : BKey :=
  (if b.kind.isEmpty then strL "state" else b.kind, b.entity_id, b.attribute')

def bindingRel (a b : Binding) : Prop := keyLeB (bindingKey a) (bindingKey b) = true

instance : DecidableRel bindingRel := fun a b => by
  unfold bindingRel
  infer_instance

/-- `sorted(bindings, key=...)` (Python sort is stable; so is insertion sort). -/
def sortBindings (bs : List Binding) : List Binding := List.insertionSort bindingRel bs

/-- Key under which a link is registered in `link_map` (stripped/coalesced fields). -/
def linkKey (ln : Link) : BKey :=
  (stripW (if ln.source.kind.isEmpty then strL "state" else ln.source.kind),
   stripW ln.source.entity_id, stripW ln.source.attribute')

/-- `if not entity_id or "." not in entity_id or not wid or not action: continue` -/
def linkValid (ln : Link) : Bool :=
  let eid := stripW ln.source.entity_id
  let wid := stripW ln.target.widget_id
  let action := stripW ln.target.action
  !eid.isEmpty && eid.contains '.' && !wid.isEmpty && !action.isEmpty

abbrev LinkMap := List (BKey × List Link)

/-- `link_map.setdefault(key, []).append(ln)` (insertion-ordered dict). -/
def lmInsert (m : LinkMap) (k : BKey) (ln : Link) : LinkMap :=
  match m with
  | [] => [(k, [ln])]
  | (k', ls) :: rest =>
    if k' = k then (k', ls ++ [ln]) :: rest else (k', ls) :: lmInsert rest k ln

def buildLinkMap (links : List Link) : LinkMap :=
  links.foldl (fun m ln => if linkValid ln then lmInsert m (linkKey ln) ln else m) []

def lmGet (m : LinkMap) (k : BKey) : List Link :=
  ((m.find? (fun p => p.1 == k)).map Prod.snd).getD []

/-- Names of the loop-avoidance lock globals; shared between the guard emission
(views.py:200-205) and the globals declarations (views.py:543-555), both of
which derive them with `_slugify_entity_id` / `_safe_id`. -/
def entityLockName (eid : Str) : Str := strL "etd_lock_" ++ slugifyEntityId eid

def pairLockName (eid wid_safe : Str) : Str := entityLockName eid ++ '_' :: wid_safe

/-- The guard condition lambda line emitted in front of every linked update. -/
def guardLambdaLine (eid wid_safe : Str) : Str :=
  strL "                  lambda: return (millis() > id(etd_ui_lock_until)) && (millis() > id(" ++
    entityLockName eid ++ strL ")) && (millis() > id(" ++ pairLockName eid wid_safe ++
    strL "));\n"

/-- Numeric scale, when the link target carries one (`isinstance(scale, (int, float))`). -/
def scaleNum : Option Value → Option Rat
  | some (.int n) => some (n : Rat)
  | some (.float q) => some q
  | _ => none

/-- Body emitted for one link inside `emit_lvgl_updates` (views.py:190-259). -/
def emitLinkUpdate (kind eid : Str) (ln : Link) : Str :=
  let wid := stripW ln.target.widget_id
  let wid_safe := safeId wid
  let action := stripW ln.target.action
  let guard :=
    strL "            - if:\n" ++ strL "                condition:\n" ++
      guardLambdaLine eid wid_safe ++ strL "                then:\n"
  let overrideBody : Option Str :=
    match ln.target.yaml_override with
    | some ov => if (stripW ov).isEmpty then none else some (stripW ov)
    | none => none
  match overrideBody with
  | some ov =>
    guard ++ (splitLines ov).flatMap (fun l => strL "                  " ++ l ++ ['\n'])
  | none =>
    guard ++
      (if action = strL "widget_checked" then
        strL "                  - lvgl.widget.update:\n" ++
          strL "                      id: " ++ wid ++ ['\n'] ++
          strL "                      state:\n" ++
          strL "                        checked: !lambda return x;\n"
      else if action = strL "slider_value" then
        strL "                  - lvgl.slider.update:\n" ++
          strL "                      id: " ++ wid ++ ['\n'] ++
          (match scaleNum ln.target.scale with
           | some q =>
             if q ≠ 1 then
               strL "                      value: !lambda return (x * " ++ floatStr q ++
                 strL ");\n"
             else strL "                      value: !lambda return x;\n"
           | none => strL "                      value: !lambda return x;\n")
      else if action = strL "arc_value" then
        strL "                  - lvgl.arc.update:\n" ++
          strL "                      id: " ++ wid ++ ['\n'] ++
          (match scaleNum ln.target.scale with
           | some q =>
             if q ≠ 1 then
               strL "                      value: !lambda return (x * " ++ floatStr q ++
                 strL ");\n"
             else strL "                      value: !lambda return x;\n"
           | none => strL "                      value: !lambda return x;\n")
      else if action = strL "label_text" then
        strL "                  - lvgl.label.update:\n" ++
          strL "                      id: " ++ wid ++ ['\n'] ++
          (if kind = strL "state" ∨ kind = strL "attribute_text" then
            strL "                      text: !lambda return x;\n"
          else
            strL "                      text:\n" ++
              strL "                        format: " ++
              jsonQuote (if ln.target.format.isEmpty then strL "%.0f" else ln.target.format) ++
              ['\n'] ++
              strL "                        args: [ 'x' ]\n")
      else if action = strL "obj_hidden" then
        strL "                  - lvgl.obj.update:\n" ++
          strL "                      id: " ++ wid ++ ['\n'] ++
          (let expr := stripW ln.target.condition_expr
           if !expr.isEmpty then
             strL "                      hidden: !lambda return !(" ++ expr ++ strL ");\n"
           else strL "                      hidden: !lambda return !(x);\n")
      else [])

def emitLvglUpdates (lm : LinkMap) (kind eid attr : Str) : Str :=
  (lmGet lm (kind, eid, attr)).flatMap (emitLinkUpdate kind eid)

structure SensorItem where
  id : Str
  entity_id : Str
  kind : Str
  attribute' : Str

/-- Per-binding classification, as a function of the sort key (the loop reads
exactly the key fields: coalesced kind, raw entity/attribute, then strips). -/
def bindingEidOf (k : BKey) : Option Str :=
  let eid := stripW k.2.1
  if !eid.isEmpty && eid.contains '.' then some eid else none

def textItemOfK (k : BKey) : Option SensorItem :=
  match bindingEidOf k with
  | none => none
  | some eid =>
    let attr := stripW k.2.2
    if k.1 = strL "binary" ∨ k.1 = strL "attribute_number" then none
    else if k.1 = strL "attribute_text" then
      some ⟨strL "ha_txt_" ++ safeId eid ++ '_' ::
          safeId (if attr.isEmpty then strL "attr" else attr),
        eid, strL "attribute_text", attr⟩
    else some ⟨strL "ha_state_" ++ safeId eid, eid, strL "state", []⟩

def numItemOfK (k : BKey) : Option SensorItem :=
  match bindingEidOf k with
  | none => none
  | some eid =>
    let attr := stripW k.2.2
    if k.1 = strL "attribute_number" then
      some ⟨strL "ha_num_" ++ safeId eid ++ '_' ::
          safeId (if attr.isEmpty then strL "attr" else attr),
        eid, strL "attribute_number", attr⟩
    else none

def binItemOfK (k : BKey) : Option SensorItem :=
  match bindingEidOf k with
  | none => none
  | some eid =>
    if k.1 = strL "binary" then some ⟨strL "ha_bin_" ++ safeId eid, eid, strL "binary", []⟩
    else none

/-- Re-indentation of the update block under `on_value:/on_state: then:`. -/
def reindent2 (s : Str) : Str :=
  (splitLines s).flatMap (fun ln => if ln.isEmpty then ['\n'] else strL "  " ++ ln ++ ['\n'])

def renderHaSensor (lm : LinkMap) (header : Str) (binary : Bool) (items : List SensorItem) :
    Str :=
  if items.isEmpty then []
  else
    header ++ items.flatMap (fun it =>
      strL "  - platform: homeassistant\n" ++
        strL "    id: " ++ it.id ++ ['\n'] ++
        strL "    entity_id: " ++ it.entity_id ++ ['\n'] ++
        (if binary then strL "    publish_initial_state: true\n"
         else if !it.attribute'.isEmpty then strL "    attribute: " ++ it.attribute' ++ ['\n']
         else []) ++
        (let thenB :=
          if binary then emitLvglUpdates lm (strL "binary") it.entity_id []
          else emitLvglUpdates lm it.kind it.entity_id it.attribute'
         if thenB.isEmpty then []
         else
           (if binary then strL "    on_state:\n" else strL "    on_value:\n") ++
             strL "      then:\n" ++ reindent2 thenB))

def compileHaBindings (p : Project) : Str :=
  let lm := buildLinkMap p.links
  let keys := (sortBindings p.bindings).map bindingKey
  let t := renderHaSensor lm (strL "text_sensor:\n") false (keys.filterMap textItemOfK)
  let s := renderHaSensor lm (strL "sensor:\n") false (keys.filterMap numItemOfK)
  let b := renderHaSensor lm (strL "binary_sensor:\n") true (keys.filterMap binItemOfK)
  if t.isEmpty && s.isEmpty && b.isEmpty then []
  else rstripW (t ++ s ++ b) ++ ['\n']

/-! ### Lock globals (`_compile_ui_lock_globals`, views.py:502-557) -/

def strLeRel (a b : Str) : Prop := (strLtB a b || a == b) = true

instance : DecidableRel strLeRel := fun a b => by
  unfold strLeRel
  infer_instance

def pairLeRel (a b : Str × Str) : Prop :=
  (strLtB a.1 b.1 || (a.1 == b.1 && (strLtB a.2 b.2 || a.2 == b.2))) = true

instance : DecidableRel pairLeRel := fun a b => by
  unfold pairLeRel
  infer_instance

/-- `sorted(set(entity_ids))`: distinct entity ids of valid bindings in string order
(the source walks the kind-sorted binding list first, which cannot change the set). -/
def lockEntityIds (p : Project) : List Str :=
  List.insertionSort strLeRel
    (((sortBindings p.bindings).map bindingKey).filterMap bindingEidOf).dedup

/-- The `(entity_id, _safe_id(widget_id))` pair a link contributes to `link_pairs`
(views.py:527-535), when its entity id and widget id pass the checks. -/
def linkLockPair (ln : Link) : Option (Str × Str) :=
  let eid := stripW ln.source.entity_id
  let wid := stripW ln.target.widget_id
  if !eid.isEmpty && eid.contains '.' && !wid.isEmpty then some (eid, safeId wid) else none

/-- `sorted(link_pairs)`: distinct `(entity_id, _safe_id(widget_id))` pairs of links. -/
def lockPairs (p : Project) : List (Str × Str) :=
  List.insertionSort pairLeRel (p.links.filterMap linkLockPair).dedup

/-- One `globals:` entry (uint32, not restored, initial `'0'`). -/
def lockDecl (lockId : Str) : Str :=
  strL "  - id: " ++ lockId ++ ['\n'] ++ strL "    type: uint32_t\n" ++
    strL "    restore_value: no\n" ++ strL "    initial_value: '0'\n"

def declaredLockIds (p : Project) : List Str :=
  strL "etd_ui_lock_until" ::
    ((lockEntityIds p).map entityLockName ++
      (lockPairs p).map (fun pr => pairLockName pr.1 pr.2))

def compileUiLockGlobals (p : Project) : Str :=
  strL "globals:\n" ++ lockDecl (strL "etd_ui_lock_until") ++
    (lockEntityIds p).flatMap (fun eid => lockDecl (entityLockName eid)) ++
    (lockPairs p).flatMap (fun pr => lockDecl (pairLockName pr.1 pr.2)) ++ ['\n']

/-! ### Order lemmas for the sort keys -/

theorem strLtB_irrefl (a : Str) : strLtB a a = false := by
  induction a with
  | nil => rfl
  | cons c t ih => simp [strLtB, ih]

theorem strLtB_conn : ∀ {a b : Str}, strLtB a b = false → strLtB b a = false → a = b
  | [], [], _, _ => rfl
  | [], _ :: _, h1, _ => by simp [strLtB] at h1
  | _ :: _, [], _, h2 => by simp [strLtB] at h2
  | a :: as, b :: bs, h1, h2 => by
    rcases lt_trichotomy a b with hab | hab | hab
    · simp [strLtB, hab] at h1
    · subst hab
      simp only [strLtB, lt_irrefl, if_false] at h1 h2
      rw [strLtB_conn h1 h2]
    · simp [strLtB, hab, not_lt_of_lt hab] at h2

theorem strLtB_asymm : ∀ {a b : Str}, strLtB a b = true → strLtB b a = false
  | [], [], h => by simp [strLtB] at h
  | [], _ :: _, _ => rfl
  | _ :: _, [], h => by simp [strLtB] at h
  | a :: as, b :: bs, h => by
    rcases lt_trichotomy a b with hab | hab | hab
    · simp [strLtB, hab, not_lt_of_lt hab]
    · subst hab
      simp only [strLtB, lt_irrefl, if_false] at h ⊢
      exact strLtB_asymm h
    · simp [strLtB, hab, not_lt_of_lt hab] at h

theorem strLtB_trans : ∀ {a b c : Str},
    strLtB a b = true → strLtB b c = true → strLtB a c = true
  | [], [], _, h1, _ => by simp [strLtB] at h1
  | [], _ :: _, [], _, h2 => by simp [strLtB] at h2
  | [], _ :: _, _ :: _, _, _ => rfl
  | _ :: _, [], _, h1, _ => by simp [strLtB] at h1
  | _ :: _, _ :: _, [], _, h2 => by simp [strLtB] at h2
  | a :: as, b :: bs, c :: cs, h1, h2 => by
    rcases lt_trichotomy a b with hab | hab | hab
    · rcases lt_trichotomy b c with hbc | hbc | hbc
      · simp [strLtB, lt_trans hab hbc]
      · subst hbc
        simp [strLtB, hab]
      · simp [strLtB, hbc, not_lt_of_lt hbc] at h2
    · subst hab
      rcases lt_trichotomy a c with hac | hac | hac
      · simp [strLtB, hac]
      · subst hac
        simp only [strLtB, lt_irrefl, if_false] at h1 h2 ⊢
        exact strLtB_trans h1 h2
      · simp [strLtB, hac, not_lt_of_lt hac] at h2
    · simp [strLtB, hab, not_lt_of_lt hab] at h1

theorem keyLeB_iff {x y : BKey} :
    keyLeB x y = true ↔
      (strLtB x.1 y.1 = true ∨
        (x.1 = y.1 ∧
          (strLtB x.2.1 y.2.1 = true ∨
            (x.2.1 = y.2.1 ∧ (strLtB x.2.2 y.2.2 = true ∨ x.2.2 = y.2.2))))) := by
  simp [keyLeB, Bool.or_eq_true, Bool.and_eq_true, beq_iff_eq]

theorem keyLeB_total (x y : BKey) : keyLeB x y = true ∨ keyLeB y x = true := by
  rw [keyLeB_iff, keyLeB_iff]
  rcases Bool.eq_false_or_eq_true (strLtB x.1 y.1) with hx1 | hx1
  case inl => exact Or.inl (Or.inl hx1)
  rcases Bool.eq_false_or_eq_true (strLtB y.1 x.1) with hy1 | hy1
  case inl => exact Or.inr (Or.inl hy1)
  have h1 : x.1 = y.1 := strLtB_conn hx1 hy1
  rcases Bool.eq_false_or_eq_true (strLtB x.2.1 y.2.1) with hx2 | hx2
  case inl => exact Or.inl (Or.inr ⟨h1, Or.inl hx2⟩)
  rcases Bool.eq_false_or_eq_true (strLtB y.2.1 x.2.1) with hy2 | hy2
  case inl => exact Or.inr (Or.inr ⟨h1.symm, Or.inl hy2⟩)
  have h2 : x.2.1 = y.2.1 := strLtB_conn hx2 hy2
  rcases Bool.eq_false_or_eq_true (strLtB x.2.2 y.2.2) with hx3 | hx3
  case inl => exact Or.inl (Or.inr ⟨h1, Or.inr ⟨h2, Or.inl hx3⟩⟩)
  rcases Bool.eq_false_or_eq_true (strLtB y.2.2 x.2.2) with hy3 | hy3
  case inl => exact Or.inr (Or.inr ⟨h1.symm, Or.inr ⟨h2.symm, Or.inl hy3⟩⟩)
  exact Or.inl (Or.inr ⟨h1, Or.inr ⟨h2, Or.inr (strLtB_conn hx3 hy3)⟩⟩)

theorem keyLeB_antisymm {x y : BKey} (h1 : keyLeB x y = true) (h2 : keyLeB y x = true) :
    x = y := by
  rw [keyLeB_iff] at h1 h2
  obtain ⟨x1, x2, x3⟩ := x
  obtain ⟨y1, y2, y3⟩ := y
  simp only at h1 h2
  rcases h1 with h1 | ⟨e1, h1⟩
  · rcases h2 with h2 | ⟨e2, h2⟩
    · rw [strLtB_asymm h1] at h2
      exact absurd h2 (by simp)
    · rw [e2, strLtB_irrefl] at h1
      exact absurd h1 (by simp)
  · rcases h2 with h2 | ⟨e2, h2⟩
    · rw [e1, strLtB_irrefl] at h2
      exact absurd h2 (by simp)
    · subst e1
      rcases h1 with h1 | ⟨f1, h1⟩
      · rcases h2 with h2 | ⟨f2, h2⟩
        · rw [strLtB_asymm h1] at h2
          exact absurd h2 (by simp)
        · rw [f2, strLtB_irrefl] at h1
          exact absurd h1 (by simp)
      · rcases h2 with h2 | ⟨f2, h2⟩
        · rw [f1, strLtB_irrefl] at h2
          exact absurd h2 (by simp)
        · subst f1
          rcases h1 with h1 | h1
          · rcases h2 with h2 | h2
            · rw [strLtB_asymm h1] at h2
              exact absurd h2 (by simp)
            · rw [h2, strLtB_irrefl] at h1
              exact absurd h1 (by simp)
          · rw [h1]
  
theorem keyLeB_trans {x y z : BKey} (h1 : keyLeB x y = true) (h2 : keyLeB y z = true) :
    keyLeB x z = true := by
  rw [keyLeB_iff] at h1 h2 ⊢
  rcases h1 with h1 | ⟨e1, h1⟩
  · rcases h2 with h2 | ⟨e2, h2⟩
    · exact Or.inl (strLtB_trans h1 h2)
    · exact Or.inl (e2 ▸ h1)
  · rcases h2 with h2 | ⟨e2, h2⟩
    · exact Or.inl (e1 ▸ h2)
    · refine Or.inr ⟨e1.trans e2, ?_⟩
      rcases h1 with h1 | ⟨f1, h1⟩
      · rcases h2 with h2 | ⟨f2, h2⟩
        · exact Or.inl (strLtB_trans h1 h2)
        · exact Or.inl (f2 ▸ h1)
      · rcases h2 with h2 | ⟨f2, h2⟩
        · exact Or.inl (f1 ▸ h2)
        · refine Or.inr ⟨f1.trans f2, ?_⟩
          rcases h1 with h1 | h1
          · rcases h2 with h2 | h2
            · exact Or.inl (strLtB_trans h1 h2)
            · exact Or.inl (h2 ▸ h1)
          · rcases h2 with h2 | h2
            · exact Or.inl (h1 ▸ h2)
            · exact Or.inr (h1.trans h2)

def keyRel (x y : BKey) : Prop := keyLeB x y = true

instance : IsTotal BKey keyRel := ⟨keyLeB_total⟩

instance : IsTrans BKey keyRel := ⟨fun _ _ _ => keyLeB_trans⟩

instance : IsAntisymm BKey keyRel := ⟨fun _ _ => keyLeB_antisymm⟩

instance : IsTotal Binding bindingRel := ⟨fun a b => keyLeB_total (bindingKey a) (bindingKey b)⟩

instance : IsTrans Binding bindingRel := ⟨fun _ _ _ => keyLeB_trans⟩

/-- The sorted key sequence of a binding list is determined by the multiset of
bindings: permuting the input leaves it unchanged. -/
theorem sortBindings_keys_perm_invariant {bs bs' : List Binding} (hperm : bs.Perm bs') :
    (sortBindings bs).map bindingKey = (sortBindings bs').map bindingKey := by
  have hs1 : List.Sorted keyRel ((sortBindings bs).map bindingKey) :=
    List.Pairwise.map bindingKey (fun _ _ h => h) (List.sorted_insertionSort bindingRel bs)
  have hs2 : List.Sorted keyRel ((sortBindings bs').map bindingKey) :=
    List.Pairwise.map bindingKey (fun _ _ h => h) (List.sorted_insertionSort bindingRel bs')
  have hp : ((sortBindings bs).map bindingKey).Perm ((sortBindings bs').map bindingKey) :=
    (((List.perm_insertionSort bindingRel bs).map bindingKey).trans
        (hperm.map bindingKey)).trans
      ((List.perm_insertionSort bindingRel bs').map bindingKey).symm
  exact List.eq_of_perm_of_sorted hp hs1 hs2

/-- C10: the outputs of the binding compiler and of the lock-globals compiler do
not depend on the order of the project's bindings list: bindings are sorted by
(kind, entity_id, attribute) before emission, and entity sets are deduplicated
and sorted. -/
theorem claim10_binding_order_invariance (p : Project) (bs bs' : List Binding)
    (hperm : bs.Perm bs') :
    compileHaBindings { p with bindings := bs } = compileHaBindings { p with bindings := bs' } ∧
    compileUiLockGlobals { p with bindings := bs } =
      compileUiLockGlobals { p with bindings := bs' } := by
  have hkeys : (sortBindings bs).map bindingKey = (sortBindings bs').map bindingKey :=
    sortBindings_keys_perm_invariant hperm
  constructor
  · unfold compileHaBindings
    rw [show ({ p with bindings := bs } : Project).bindings = bs from rfl,
      show ({ p with bindings := bs' } : Project).bindings = bs' from rfl, hkeys]
  · unfold compileUiLockGlobals lockEntityIds lockPairs
    rw [show ({ p with bindings := bs } : Project).bindings = bs from rfl,
      show ({ p with bindings := bs' } : Project).bindings = bs' from rfl, hkeys]

/-- Witness for C10: two bindings in either order compile identically. -/
theorem claim10_witness :
    ([Binding.mk (strL "state") (strL "light.kitchen") [],
      Binding.mk (strL "binary") (strL "switch.fan") []].Perm
      [Binding.mk (strL "binary") (strL "switch.fan") [],
       Binding.mk (strL "state") (strL "light.kitchen") []]) ∧
    (compileHaBindings
        { pages := [], bindings := [Binding.mk (strL "state") (strL "light.kitchen") [],
            Binding.mk (strL "binary") (strL "switch.fan") []],
          links := [], action_bindings := [], scripts := [],
          advanced := ⟨[], [], []⟩ } =
      compileHaBindings
        { pages := [], bindings := [Binding.mk (strL "binary") (strL "switch.fan") [],
            Binding.mk (strL "state") (strL "light.kitchen") []],
          links := [], action_bindings := [], scripts := [],
          advanced := ⟨[], [], []⟩ } ∧
     compileUiLockGlobals
        { pages := [], bindings := [Binding.mk (strL "state") (strL "light.kitchen") [],
            Binding.mk (strL "binary") (strL "switch.fan") []],
          links := [], action_bindings := [], scripts := [],
          advanced := ⟨[], [], []⟩ } =
      compileUiLockGlobals
        { pages := [], bindings := [Binding.mk (strL "binary") (strL "switch.fan") [],
            Binding.mk (strL "state") (strL "light.kitchen") []],
          links := [], action_bindings := [], scripts := [],
          advanced := ⟨[], [], []⟩ }) :=
  ⟨List.Perm.swap _ _ _,
   claim10_binding_order_invariance
     { pages := [], bindings := [Binding.mk (strL "state") (strL "light.kitchen") [],
         Binding.mk (strL "binary") (strL "switch.fan") []],
       links := [], action_bindings := [], scripts := [],
       advanced := ⟨[], [], []⟩ } _ _ (List.Perm.swap _ _ _)⟩

/-- C6 counterexample: a link whose action is the unrecognized, non-empty string
`"bogus"` is NOT silently dropped — it still changes the compiled bindings
output (an `- if:` lock-guard block with an empty body is emitted). -/
theorem claim6_counterexample :
    compileHaBindings
        { pages := [], bindings := [Binding.mk (strL "state") (strL "light.a") []],
          links := [⟨⟨strL "light.a", strL "state", []⟩,
            ⟨strL "w1", strL "bogus", none, [], none, []⟩⟩],
          action_bindings := [], scripts := [], advanced := ⟨[], [], []⟩ } ≠
      compileHaBindings
        { pages := [], bindings := [Binding.mk (strL "state") (strL "light.a") []],
          links := [], action_bindings := [], scripts := [], advanced := ⟨[], [], []⟩ } := by
  decide

/-- C6 (amended): the compiler drops a link only when its stripped entity id is
empty or lacks `'.'`, its widget id is empty, or its action is EMPTY (not
merely unrecognized): such links contribute nothing.  A link with a non-empty
unrecognized action and no yaml override still emits the lock-guard block with
an empty `then:` body. -/
theorem claim6_amended_link_filter :
    (∀ (p : Project) (l1 l2 : List Link) (ln : Link), linkValid ln = false →
      compileHaBindings { p with links := l1 ++ ln :: l2 } =
        compileHaBindings { p with links := l1 ++ l2 }) ∧
    (∀ (kind eid : Str) (ln : Link),
      stripW ln.target.action ≠ strL "widget_checked" →
      stripW ln.target.action ≠ strL "slider_value" →
      stripW ln.target.action ≠ strL "arc_value" →
      stripW ln.target.action ≠ strL "label_text" →
      stripW ln.target.action ≠ strL "obj_hidden" →
      (∀ ov, ln.target.yaml_override = some ov → (stripW ov).isEmpty = true) →
      emitLinkUpdate kind eid ln =
        strL "            - if:\n" ++ strL "                condition:\n" ++
          guardLambdaLine eid (safeId (stripW ln.target.widget_id)) ++
          strL "                then:\n") := by
  constructor
  · intro p l1 l2 ln hinv
    unfold compileHaBindings buildLinkMap
    simp only [List.foldl_append, List.foldl_cons, hinv, Bool.false_eq_true, if_false]
  · intro kind eid ln h1 h2 h3 h4 h5 hov
    unfold emitLinkUpdate
    have hovEq : (match ln.target.yaml_override with
        | some ov => if (stripW ov).isEmpty then none else some (stripW ov)
        | none => none) = (none : Option Str) := by
      cases hcase : ln.target.yaml_override with
      | none => rfl
      | some ov => simp [hov ov hcase]
    rw [hovEq]
    simp [h1, h2, h3, h4, h5]

/-- Witness for the amended C6 at a concrete invalid link (empty widget id) and
a concrete unrecognized action. -/
theorem claim6_amended_witness :
    (linkValid ⟨⟨strL "light.a", strL "state", []⟩, ⟨[], strL "label_text", none, [], none, []⟩⟩ =
        false ∧
     compileHaBindings
        { pages := [], bindings := [Binding.mk (strL "state") (strL "light.a") []],
          links := [] ++ ⟨⟨strL "light.a", strL "state", []⟩,
            ⟨[], strL "label_text", none, [], none, []⟩⟩ :: [],
          action_bindings := [], scripts := [], advanced := ⟨[], [], []⟩ } =
      compileHaBindings
        { pages := [], bindings := [Binding.mk (strL "state") (strL "light.a") []],
          links := [] ++ [], action_bindings := [], scripts := [],
          advanced := ⟨[], [], []⟩ }) ∧
    emitLinkUpdate (strL "state") (strL "light.a")
        ⟨⟨strL "light.a", strL "state", []⟩, ⟨strL "w1", strL "bogus", none, [], none, []⟩⟩ =
      strL "            - if:\n" ++ strL "                condition:\n" ++
        guardLambdaLine (strL "light.a")
          (safeId (stripW (strL "w1"))) ++
        strL "                then:\n" :=
  ⟨⟨by decide,
    claim6_amended_link_filter.1
      { pages := [], bindings := [Binding.mk (strL "state") (strL "light.a") []],
        links := [], action_bindings := [], scripts := [], advanced := ⟨[], [], []⟩ }
      [] [] _ (by decide)⟩,
   claim6_amended_link_filter.2 _ _ _ (by decide) (by decide) (by decide) (by decide) (by decide)
     (fun ov hov => by simp at hov)⟩

/-! ### Substring helper lemmas -/

theorem isPreB_append_of {n s : Str} (b : Str) (h : isPreB n s = true) :
    isPreB n (s ++ b) = true := by
  induction n generalizing s with
  | nil => rfl
  | cons c t ih =>
    cases s with
    | nil => simp [isPreB] at h
    | cons d u =>
      simp only [isPreB, Bool.and_eq_true] at h ⊢
      exact ⟨h.1, ih h.2⟩

theorem isPreB_self_append (n b : Str) : isPreB n (n ++ b) = true := by
  induction n with
  | nil => rfl
  | cons c t ih => simp [isPreB, ih]

theorem containsB_of_isPreB {n s : Str} (h : isPreB n s = true) : containsB n s = true := by
  cases s with
  | nil => exact h
  | cons c t => simp [containsB, h]

theorem containsB_append_right (n a b : Str) (h : containsB n b = true) :
    containsB n (a ++ b) = true := by
  induction a with
  | nil => exact h
  | cons c t ih => simp [containsB, ih]

theorem containsB_append_left (n a b : Str) (h : containsB n a = true) :
    containsB n (a ++ b) = true := by
  induction a with
  | nil =>
    cases n with
    | nil => exact containsB_of_isPreB rfl
    | cons c t => simp [containsB, isPreB] at h
  | cons c t ih =>
    simp only [containsB, Bool.or_eq_true] at h
    rcases h with h | h
    · simpa [containsB] using Or.inl (isPreB_append_of b h)
    · simpa [containsB] using Or.inr (ih h)

theorem containsB_flatMap_of_mem {α : Type} (f : α → Str) (n : Str) (l : List α) (m : α)
    (hm : m ∈ l) (h : containsB n (f m) = true) : containsB n (l.flatMap f) = true := by
  induction l with
  | nil => cases hm
  | cons x xs ih =>
    rcases List.mem_cons.mp hm with hx | hx
    · subst hx
      exact containsB_append_left n (f m) _ h
    · exact containsB_append_right n (f x) _ (ih hx)

theorem isPreB_refl (n : Str) : isPreB n n = true := by
  induction n with
  | nil => rfl
  | cons c t ih => simp [isPreB, ih]

theorem containsB_self (n : Str) : containsB n n = true :=
  containsB_of_isPreB (isPreB_refl n)

theorem lockDecl_isPre (x : Str) :
    isPreB (strL "  - id: " ++ (x ++ ['\n'])) (lockDecl x) = true := by
  have hd : lockDecl x =
      (strL "  - id: " ++ (x ++ ['\n'])) ++
        (strL "    type: uint32_t\n" ++
          (strL "    restore_value: no\n" ++ strL "    initial_value: '0'\n")) := by
    simp [lockDecl, List.append_assoc]
  rw [hd]
  exact isPreB_self_append _ _

/-- C9: the globals section is exactly the global `etd_ui_lock_until` lock plus
one declaration per distinct validly-bound entity id and one per distinct
(entity, widget) pair from link targets (both lists duplicate-free), and the
lock identifiers referenced by every emitted guard condition are the very same
strings (`entityLockName`/`pairLockName`, built from `_slugify_entity_id` and
`_safe_id`) as the declared ids. -/
theorem claim9_lock_globals (p : Project) :
    compileUiLockGlobals p =
      strL "globals:\n" ++ (declaredLockIds p).flatMap lockDecl ++ ['\n'] ∧
    containsB (strL "  - id: etd_ui_lock_until\n") (compileUiLockGlobals p) = true ∧
    (lockEntityIds p).Nodup ∧
    (lockPairs p).Nodup ∧
    (∀ b ∈ p.bindings, ∀ eid, bindingEidOf (bindingKey b) = some eid →
      eid ∈ lockEntityIds p ∧
      containsB (strL "  - id: " ++ (entityLockName eid ++ ['\n']))
        (compileUiLockGlobals p) = true) ∧
    (∀ ln ∈ p.links, ∀ pr, linkLockPair ln = some pr →
      pr ∈ lockPairs p ∧
      containsB (strL "  - id: " ++ (pairLockName pr.1 pr.2 ++ ['\n']))
        (compileUiLockGlobals p) = true) ∧
    (∀ eid w, containsB (entityLockName eid) (guardLambdaLine eid w) = true ∧
      containsB (pairLockName eid w) (guardLambdaLine eid w) = true) := by
  refine ⟨?_, ?_, ?_, ?_, ?_, ?_, ?_⟩
  · unfold compileUiLockGlobals declaredLockIds
    simp [List.flatMap_append, List.flatMap_map, List.append_assoc, Function.comp]
  · unfold compileUiLockGlobals
    refine containsB_append_left _ _ _ (containsB_append_left _ _ _
      (containsB_append_left _ _ _ (containsB_append_right _ _ _ ?_)))
    decide
  · exact ((List.perm_insertionSort strLeRel _).nodup_iff).mpr (List.nodup_dedup _)
  · exact ((List.perm_insertionSort pairLeRel _).nodup_iff).mpr (List.nodup_dedup _)
  · intro b hb eid heid
    have hmem : eid ∈ lockEntityIds p := by
      have h1 : bindingKey b ∈ (sortBindings p.bindings).map bindingKey :=
        List.mem_map_of_mem _
          ((List.perm_insertionSort bindingRel p.bindings).mem_iff.mpr hb)
      have h2 : eid ∈ ((sortBindings p.bindings).map bindingKey).filterMap bindingEidOf :=
        List.mem_filterMap.mpr ⟨bindingKey b, h1, heid⟩
      exact (List.perm_insertionSort strLeRel _).mem_iff.mpr (List.mem_dedup.mpr h2)
    refine ⟨hmem, ?_⟩
    unfold compileUiLockGlobals
    refine containsB_append_left _ _ _ (containsB_append_left _ _ _
      (containsB_append_right _ _ _ ?_))
    exact containsB_flatMap_of_mem _ _ _ eid hmem
      (containsB_of_isPreB (lockDecl_isPre (entityLockName eid)))
  · intro ln hln pr hpr
    have hmem : pr ∈ lockPairs p := by
      have h2 : pr ∈ p.links.filterMap linkLockPair :=
        List.mem_filterMap.mpr ⟨ln, hln, hpr⟩
      exact (List.perm_insertionSort pairLeRel _).mem_iff.mpr (List.mem_dedup.mpr h2)
    refine ⟨hmem, ?_⟩
    unfold compileUiLockGlobals
    refine containsB_append_left _ _ _ (containsB_append_right _ _ _ ?_)
    exact containsB_flatMap_of_mem _ _ _ pr hmem
      (containsB_of_isPreB (lockDecl_isPre (pairLockName pr.1 pr.2)))
  · intro eid w
    constructor
    · unfold guardLambdaLine
      refine containsB_append_left _ _ _ (containsB_append_left _ _ _
        (containsB_append_left _ _ _ (containsB_append_right _ _ _ ?_)))
      exact containsB_self _
    · unfold guardLambdaLine
      refine containsB_append_left _ _ _ (containsB_append_right _ _ _ ?_)
      exact containsB_self _

def bind9 : Binding := ⟨strL "state", strL "light.kitchen", []⟩

def link9 : Link :=
  ⟨⟨strL "light.kitchen", strL "state", []⟩,
   ⟨strL "lbl1", strL "label_text", none, [], none, []⟩⟩

def proj9 : Project :=
  { pages := [], bindings := [bind9], links := [link9], action_bindings := [],
    scripts := [], advanced := ⟨[], [], []⟩ }

/-- Witness for C9 at a concrete one-binding/one-link project. -/
theorem claim9_witness :
    (bind9 ∈ proj9.bindings ∧
     bindingEidOf (bindingKey bind9) = some (strL "light.kitchen") ∧
     link9 ∈ proj9.links ∧
     linkLockPair link9 = some (strL "light.kitchen", safeId (strL "lbl1"))) ∧
    ((strL "light.kitchen" ∈ lockEntityIds proj9 ∧
      containsB (strL "  - id: " ++ (entityLockName (strL "light.kitchen") ++ ['\n']))
        (compileUiLockGlobals proj9) = true) ∧
     ((strL "light.kitchen", safeId (strL "lbl1")) ∈ lockPairs proj9 ∧
      containsB
        (strL "  - id: " ++
          (pairLockName (strL "light.kitchen") (safeId (strL "lbl1")) ++ ['\n']))
        (compileUiLockGlobals proj9) = true)) :=
  ⟨⟨List.mem_singleton.mpr rfl, by decide, List.mem_singleton.mpr rfl, by decide⟩,
   (claim9_lock_globals proj9).2.2.2.2.1 bind9 (List.mem_singleton.mpr rfl)
     (strL "light.kitchen") (by decide),
   (claim9_lock_globals proj9).2.2.2.2.2.1 link9 (List.mem_singleton.mpr rfl)
     (strL "light.kitchen", safeId (strL "lbl1")) (by decide)⟩

/-! ### Widget schema model and emitter (`_emit_widget_from_schema`, views.py:778-976) -/

structure FieldDef where
  hasType : Bool
  default : Option Value
  compiler_emit_default : Bool

structure EsRemap where
  root_key : Str
  props : List (Str × Str)
  style : List (Str × Str)
  events : List (Str × Str)

structure Schema where
  type : Str
  esphome : EsRemap
  props : List (Str × FieldDef)
  style : List (Str × FieldDef)
  events : List (Str × FieldDef)
  parts : List (Str × List (Str × FieldDef))

def alistLookup {α : Type} (k : Str) (l : List (Str × α)) : Option α :=
  (l.find? (fun kv => kv.1 == k)).map Prod.snd

/-- `d[k] = v` on an insertion-ordered dict. -/
def alistSet {α : Type} (l : List (Str × α)) (k : Str) (v : α) : List (Str × α) :=
  match l with
  | [] => [(k, v)]
  | kv :: rest => if kv.1 = k then (k, v) :: rest else kv :: alistSet rest k v

/-- `_yaml_quote` (views.py:785-795). -/
def yamlQuote : Value → Str
  | .str s => jsonQuote s
  | .bool true => strL "true"
  | .bool false => strL "false"
  | .null => strL "null"
  | v => pyStr v

/-- `_emit_kv` (views.py:798-827). -/
def emitKv (indent key : Str) : Value → Str
  | .null => []
  | .list items =>
    indent ++ key ++ strL ":\n" ++
      items.flatMap (fun it => indent ++ strL "  - " ++ yamlQuote it ++ ['\n'])
  | .dict items =>
    indent ++ key ++ strL ":\n" ++
      items.flatMap (fun kv => indent ++ strL "  " ++ kv.1 ++ strL ": " ++ yamlQuote kv.2 ++ ['\n'])
  | .str s =>
    if containsB ['\n'] s then
      indent ++ key ++ strL ": |-\n" ++
        (splitLines s).flatMap (fun ln => indent ++ strL "  " ++ ln ++ ['\n'])
    else indent ++ key ++ strL ": " ++ yamlQuote (.str s) ++ ['\n']
  | v => indent ++ key ++ strL ": " ++ yamlQuote v ++ ['\n']

/-- `_action_binding_call_to_yaml` (views.py:830-858). -/
def actionBindingCallToYaml (call : Call) : Str :=
  let domain := stripW call.domain
  let service := stripW call.service
  if domain.isEmpty || service.isEmpty then []
  else
    joinNl
      ([strL "then:", strL "  - homeassistant.action:",
        strL "      action: " ++ domain ++ '.' :: service, strL "      data:"] ++
       (if !call.entity_id.isEmpty then
          [strL "        entity_id: " ++ jsonQuote call.entity_id]
        else []) ++
       call.data.flatMap (fun kv =>
         match kv.2 with
         | .null => []
         | v =>
           let vstr := stripW (pyStr v)
           if isPreB (strL "!lambda") vstr then [strL "        " ++ kv.1 ++ strL ": " ++ vstr]
           else [strL "        " ++ kv.1 ++ strL ": " ++ jsonDumpsValue v]) ++
       (if call.entity_id.isEmpty && call.data.isEmpty then [strL "        \x7b\x7d"] else []))

/-- First line of the event payload matching
`^\s*entity_id:\s*([A-Za-z0-9_]+\.[A-Za-z0-9_]+)\s*$` (re.M), captured group. -/
def lineEntityId (ln : Str) : Option Str :=
  let r := ln.dropWhile isPySpace
  if isPreB (strL "entity_id:") r then
    let r2 := (r.drop 10).dropWhile isPySpace
    let t1 := r2.takeWhile charIsIdent
    if t1.isEmpty then none
    else
      match r2.drop t1.length with
      | '.' :: r4 =>
        let t2 := r4.takeWhile charIsIdent
        if !t2.isEmpty && (r4.drop t2.length).all isPySpace then some (t1 ++ '.' :: t2)
        else none
      | _ => none
  else none

def extractEntityId (v : Str) : Option Str := (splitLines v).findSome? lineEntityId

/-- The loop-avoidance lambda lines inserted after `then:` (views.py:900-910). -/
def hardenLockLines (wid : Str) (v : Str) : List Str :=
  strL "  - lambda: id(etd_ui_lock_until) = millis() + 500;" ::
    (match extractEntityId v with
     | some eid =>
       [strL "  - lambda: id(" ++ entityLockName eid ++ strL ") = millis() + 500;",
        strL "  - lambda: id(" ++ pairLockName eid (safeId wid) ++ strL ") = millis() + 500;"]
     | none => [])

/-- Insert `ins` right after the first line whose strip is `then:`; lines after
the insertion point are copied unchanged (views.py:912-922). -/
def insertAfterThen (ins : List Str) : List Str → List Str
  | [] => []
  | ln :: rest =>
    if stripW ln = strL "then:" then ln :: (ins ++ rest) else ln :: insertAfterThen ins rest

/-- `_maybe_harden_event` (views.py:882-922). -/
def maybeHardenEvent (isEvents : Bool) (wid yamlKey : Str) (v : Value) : Value :=
  if !isEvents then v
  else
    match v with
    | .str s =>
      if !(yamlKey == strL "on_value" || yamlKey == strL "on_press" ||
          yamlKey == strL "on_release") then .str s
      else if !(containsB (strL "homeassistant.action") s) then .str s
      else if containsB (strL "delay") s then .str s
      else
        .str (joinNl (insertAfterThen
          (hardenLockLines wid s ++ [strL "  - delay: 150ms"]) (splitLines s)))
    | v' => v'

/-- One schema field of one section of `_emit_widget_from_schema`
(views.py:936-942): emit the supplied value, else the declared default when the
`compiler_emit_default` flag is set, else nothing. -/
def emitSchemaField (isEvents : Bool) (wid : Str) (mapping : List (Str × Str))
    (values : List (Str × Value)) (kf : Str × FieldDef) : Str :=
  let yamlKey := (alistLookup kf.1 mapping).getD kf.1
  let defBranch :=
    if kf.2.compiler_emit_default && kf.2.default.isSome then
      emitKv (strL "        ") yamlKey (kf.2.default.getD Value.null)
    else []
  match alistLookup kf.1 values with
  | some v =>
    if !v.isNoneOrEmptyStr then
      emitKv (strL "        ") yamlKey (maybeHardenEvent isEvents wid yamlKey v)
    else defBranch
  | none => defBranch

/-- `action_by_event` (views.py:876-880): last binding per event name wins. -/
def actionByEvent (abs : List ActionBinding) : List (Str × ActionBinding) :=
  abs.foldl (fun m ab => if ab.event.isEmpty then m else alistSet m ab.event ab) []

/-- Merge of action bindings into the events value dict (views.py:929-935). -/
def mergeEventValues (values : List (Str × Value)) (abe : List (Str × ActionBinding)) :
    List (Str × Value) :=
  abe.foldl
    (fun vals evab =>
      if !evab.2.yaml_override.isEmpty then alistSet vals evab.1 (.str evab.2.yaml_override)
      else
        match evab.2.call with
        | some c => alistSet vals evab.1 (.str (actionBindingCallToYaml c))
        | none => vals)
    values

/-- Action-binding events not present in the schema (views.py:944-952). -/
def emitExtraEvents (wid : Str) (remapEv : List (Str × Str)) (fields : List (Str × FieldDef))
    (abe : List (Str × ActionBinding)) : Str :=
  abe.flatMap (fun evab =>
    if (alistLookup evab.1 fields).isSome then []
    else
      let yamlKey :=
        match alistLookup evab.1 remapEv with
        | some yk => if yk.isEmpty then evab.1 else yk
        | none => evab.1
      if !evab.2.yaml_override.isEmpty then
        emitKv (strL "        ") yamlKey
          (maybeHardenEvent true wid yamlKey (.str evab.2.yaml_override))
      else
        match evab.2.call with
        | some c =>
          emitKv (strL "        ") yamlKey
            (maybeHardenEvent true wid yamlKey (.str (actionBindingCallToYaml c)))
        | none => [])

/-- `part_fields and any(isinstance(v, dict) and ("type" in v or "default" in v) ...)` -/
def partQualifies (fields : List (Str × FieldDef)) : Bool :=
  !fields.isEmpty && fields.any (fun kv => kv.2.hasType || kv.2.default.isSome)

def emitPartSection (widget : Widget) (part : Str × List (Str × FieldDef)) : Str :=
  if !partQualifies part.2 then []
  else
    let values := (alistLookup part.1 widget.parts).getD []
    if values.isEmpty then []
    else
      strL "        " ++ part.1 ++ strL ":\n" ++
        part.2.flatMap (fun kf =>
          match alistLookup kf.1 values with
          | none => []
          | some v =>
            if v.isNoneOrEmptyStr then [] else emitKv (strL "          ") kf.1 v)

def intStr (n : Int) : Str := strL (toString n)

/-- `_emit_widget_from_schema` (views.py:861-976). -/
def emitWidgetFromSchema (widget : Widget) (schema : Schema) (abs : List ActionBinding) :
    Str :=
  let wtype := if widget.type.isEmpty then schema.type else widget.type
  let rootKey := if schema.esphome.root_key.isEmpty then wtype else schema.esphome.root_key
  let wid := if widget.id.isEmpty then strL "w" else widget.id
  let abe := actionByEvent abs
  strL "        - " ++ rootKey ++ strL ":\n" ++
    strL "        id: " ++ wid ++ ['\n'] ++
    (match widget.x with
     | some v => strL "        x: " ++ intStr v ++ ['\n']
     | none => []) ++
    (match widget.y with
     | some v => strL "        y: " ++ intStr v ++ ['\n']
     | none => []) ++
    (match widget.w with
     | some v => strL "        width: " ++ intStr v ++ ['\n']
     | none => []) ++
    (match widget.h with
     | some v => strL "        height: " ++ intStr v ++ ['\n']
     | none => []) ++
    schema.props.flatMap (emitSchemaField false wid schema.esphome.props widget.props) ++
    schema.style.flatMap (emitSchemaField false wid schema.esphome.style widget.style) ++
    (let evVals := if abe.isEmpty then widget.events else mergeEventValues widget.events abe
     schema.events.flatMap (emitSchemaField true wid schema.esphome.events evVals)) ++
    (if abe.isEmpty then [] else emitExtraEvents wid schema.esphome.events schema.events abe) ++
    schema.parts.flatMap (emitPartSection widget)

def Value.isStr : Value → Bool
  | .str _ => true
  | _ => false

/-- C7: a schema field the widget does not supply (or supplies as None/"") is
omitted entirely unless `compiler_emit_default` is set AND a default is
declared; only then is the default emitted (under the remapped key). -/
theorem claim7_default_suppression :
    (∀ (isEvents : Bool) (wid : Str) (mapping : List (Str × Str))
        (values : List (Str × Value)) (k : Str) (fd : FieldDef)
        (fields1 fields2 : List (Str × FieldDef)),
      (alistLookup k values = none ∨
        ∃ v, alistLookup k values = some v ∧ v.isNoneOrEmptyStr = true) →
      fd.compiler_emit_default = false →
      emitSchemaField isEvents wid mapping values (k, fd) = [] ∧
      (fields1 ++ (k, fd) :: fields2).flatMap (emitSchemaField isEvents wid mapping values) =
        (fields1 ++ fields2).flatMap (emitSchemaField isEvents wid mapping values)) ∧
    (∀ (isEvents : Bool) (wid : Str) (mapping : List (Str × Str))
        (values : List (Str × Value)) (k : Str) (fd : FieldDef),
      (alistLookup k values = none ∨
        ∃ v, alistLookup k values = some v ∧ v.isNoneOrEmptyStr = true) →
      fd.default = none →
      emitSchemaField isEvents wid mapping values (k, fd) = []) ∧
    (∀ (isEvents : Bool) (wid : Str) (mapping : List (Str × Str))
        (values : List (Str × Value)) (k : Str) (fd : FieldDef) (d : Value),
      (alistLookup k values = none ∨
        ∃ v, alistLookup k values = some v ∧ v.isNoneOrEmptyStr = true) →
      fd.compiler_emit_default = true → fd.default = some d →
      emitSchemaField isEvents wid mapping values (k, fd) =
        emitKv (strL "        ") ((alistLookup k mapping).getD k) d) := by
  have hempty : ∀ (isEvents : Bool) (wid : Str) (mapping : List (Str × Str))
      (values : List (Str × Value)) (k : Str) (fd : FieldDef),
      (alistLookup k values = none ∨
        ∃ v, alistLookup k values = some v ∧ v.isNoneOrEmptyStr = true) →
      fd.compiler_emit_default = false →
      emitSchemaField isEvents wid mapping values (k, fd) = [] := by
    intro isEvents wid mapping values k fd hv hflag
    unfold emitSchemaField
    rcases hv with hv | ⟨v, hv, hvv⟩
    · simp [hv, hflag]
    · simp [hv, hvv, hflag]
  refine ⟨?_, ?_, ?_⟩
  · intro isEvents wid mapping values k fd fields1 fields2 hv hflag
    have h0 := hempty isEvents wid mapping values k fd hv hflag
    refine ⟨h0, ?_⟩
    simp [List.flatMap_append, h0]
  · intro isEvents wid mapping values k fd hv hdef
    unfold emitSchemaField
    rcases hv with hv | ⟨v, hv, hvv⟩
    · simp [hv, hdef]
    · simp [hv, hvv, hdef]
  · intro isEvents wid mapping values k fd d hv hflag hdef
    unfold emitSchemaField
    rcases hv with hv | ⟨v, hv, hvv⟩
    · simp [hv, hflag, hdef]
    · simp [hv, hvv, hflag, hdef]

/-- Witness for C7: a field with a declared default but no emission flag
contributes nothing; with the flag it emits the default. -/
theorem claim7_witness :
    (alistLookup (strL "text") ([] : List (Str × Value)) = none ∧
     FieldDef.compiler_emit_default ⟨false, some (.str (strL "Label")), false⟩ = false ∧
     FieldDef.compiler_emit_default ⟨false, some (.str (strL "Label")), true⟩ = true ∧
     FieldDef.default ⟨false, some (.str (strL "Label")), true⟩ = some (.str (strL "Label"))) ∧
    (emitSchemaField false (strL "w1") [] []
        (strL "text", ⟨false, some (.str (strL "Label")), false⟩) = [] ∧
     emitSchemaField false (strL "w1") [] []
        (strL "text", ⟨false, some (.str (strL "Label")), true⟩) =
      emitKv (strL "        ") ((alistLookup (strL "text") []).getD (strL "text"))
        (.str (strL "Label"))) :=
  ⟨⟨rfl, rfl, rfl, rfl⟩,
   (claim7_default_suppression.1 false (strL "w1") [] [] (strL "text")
       ⟨false, some (.str (strL "Label")), false⟩ [] [] (Or.inl rfl) rfl).1,
   claim7_default_suppression.2.2 false (strL "w1") [] [] (strL "text")
     ⟨false, some (.str (strL "Label")), true⟩ (.str (strL "Label")) (Or.inl rfl) rfl rfl⟩

theorem insertAfterThen_spec (ins pre post : List Str) (thenLn : Str)
    (hpre : ∀ l ∈ pre, stripW l ≠ strL "then:") (hthen : stripW thenLn = strL "then:") :
    insertAfterThen ins (pre ++ thenLn :: post) = pre ++ thenLn :: (ins ++ post) := by
  induction pre with
  | nil => simp [insertAfterThen, hthen]
  | cons l rest ih =>
    have hl : stripW l ≠ strL "then:" := hpre l (List.mem_cons_self l rest)
    simp only [List.cons_append, insertAfterThen, if_neg hl, List.append_eq]
    rw [ih (fun x hx => hpre x (List.mem_cons_of_mem l hx))]

/-- C8: events under `on_value`/`on_press`/`on_release` whose string payload
calls `homeassistant.action` and does not mention `delay` get the global lock,
the per-entity and per-(entity,widget) locks (when an entity id is extractable)
and a fixed `- delay: 150ms` inserted right after the first `then:` line;
everything else is emitted unchanged. -/
theorem claim8_event_hardening :
    (∀ (wid k : Str) (v : Value), maybeHardenEvent false wid k v = v) ∧
    (∀ (wid k : Str) (v : Value), v.isStr = false → maybeHardenEvent true wid k v = v) ∧
    (∀ (wid k : Str) (s : Str),
      k ≠ strL "on_value" → k ≠ strL "on_press" → k ≠ strL "on_release" →
      maybeHardenEvent true wid k (.str s) = .str s) ∧
    (∀ (wid k : Str) (s : Str), containsB (strL "homeassistant.action") s = false →
      maybeHardenEvent true wid k (.str s) = .str s) ∧
    (∀ (wid k : Str) (s : Str), containsB (strL "delay") s = true →
      maybeHardenEvent true wid k (.str s) = .str s) ∧
    (∀ (wid k s : Str) (pre post : List Str) (thenLn : Str),
      (k = strL "on_value" ∨ k = strL "on_press" ∨ k = strL "on_release") →
      containsB (strL "homeassistant.action") s = true →
      containsB (strL "delay") s = false →
      splitLines s = pre ++ thenLn :: post →
      (∀ l ∈ pre, stripW l ≠ strL "then:") →
      stripW thenLn = strL "then:" →
      maybeHardenEvent true wid k (.str s) =
        .str (joinNl (pre ++ thenLn ::
          (hardenLockLines wid s ++ [strL "  - delay: 150ms"] ++ post)))) ∧
    (∀ (wid s : Str),
      (∀ eid, extractEntityId s = some eid →
        hardenLockLines wid s =
          [strL "  - lambda: id(etd_ui_lock_until) = millis() + 500;",
           strL "  - lambda: id(" ++ entityLockName eid ++ strL ") = millis() + 500;",
           strL "  - lambda: id(" ++ pairLockName eid (safeId wid) ++
             strL ") = millis() + 500;"]) ∧
      (extractEntityId s = none →
        hardenLockLines wid s =
          [strL "  - lambda: id(etd_ui_lock_until) = millis() + 500;"])) := by
  refine ⟨?_, ?_, ?_, ?_, ?_, ?_, ?_⟩
  · intro wid k v
    simp [maybeHardenEvent]
  · intro wid k v hv
    cases v <;> simp_all [maybeHardenEvent, Value.isStr]
  · intro wid k s h1 h2 h3
    simp [maybeHardenEvent, h1, h2, h3]
  · intro wid k s h
    unfold maybeHardenEvent
    simp only [Bool.not_false, if_true]
    split
    · rfl
    · simp [h]
  · intro wid k s h
    unfold maybeHardenEvent
    simp only [Bool.not_false, if_true]
    split
    · rfl
    · simp [h]
  · intro wid k s pre post thenLn hk hact hdel hsplit hpre hthen
    unfold maybeHardenEvent
    have hkeys : (k == strL "on_value" || k == strL "on_press" ||
        k == strL "on_release") = true := by
      rcases hk with hk | hk | hk <;> simp [hk]
    simp only [Bool.not_false, if_true, hkeys, hact, hdel, Bool.not_true,
      Bool.false_eq_true, if_false]
    rw [hsplit, insertAfterThen_spec _ pre post thenLn hpre hthen]
  · intro wid s
    constructor
    · intro eid heid
      simp [hardenLockLines, heid]
    · intro hnone
      simp [hardenLockLines, hnone]

def event8 : Str :=
  strL "then:\n  - homeassistant.action:\n      action: light.toggle\n      data:\n        entity_id: light.a"

def event8tail : List Str :=
  [strL "  - homeassistant.action:", strL "      action: light.toggle",
   strL "      data:", strL "        entity_id: light.a"]

/-- Witness for C8 at a concrete sliderish `on_value` payload. -/
theorem claim8_witness :
    (containsB (strL "homeassistant.action") event8 = true ∧
     containsB (strL "delay") event8 = false ∧
     splitLines event8 = [] ++ strL "then:" :: event8tail ∧
     stripW (strL "then:") = strL "then:" ∧
     extractEntityId event8 = some (strL "light.a")) ∧
    (maybeHardenEvent true (strL "sl1") (strL "on_value") (.str event8) =
       .str (joinNl ([] ++ strL "then:" ::
         (hardenLockLines (strL "sl1") event8 ++ [strL "  - delay: 150ms"] ++ event8tail))) ∧
     hardenLockLines (strL "sl1") event8 =
       [strL "  - lambda: id(etd_ui_lock_until) = millis() + 500;",
        strL "  - lambda: id(" ++ entityLockName (strL "light.a") ++
          strL ") = millis() + 500;",
        strL "  - lambda: id(" ++ pairLockName (strL "light.a") (safeId (strL "sl1")) ++
          strL ") = millis() + 500;"]) :=
  ⟨⟨by decide, by decide, by decide, by decide, by decide⟩,
   claim8_event_hardening.2.2.2.2.2.1 (strL "sl1") (strL "on_value") event8 []
     event8tail (strL "then:") (Or.inl rfl) (by decide) (by decide) (by decide)
     (fun l hl => absurd hl (List.not_mem_nil l)) (by decide),
   (claim8_event_hardening.2.2.2.2.2.2 (strL "sl1") event8).1 (strL "light.a") (by decide)⟩

/-! ### Remaining compiler stages (views.py:131-462, 559-747, 979-1067) -/

/-- Python truthiness of a JSON value. -/
def valueTruthy : Value → Bool
  | .null => false
  | .bool b => b
  | .int n => n != 0
  | .float q => q != 0
  | .str s => !s.isEmpty
  | .list l => !l.isEmpty
  | .dict d => !d.isEmpty

/-- `_inject_pages_into_recipe` (views.py:131-135). -/
def injectPagesIntoRecipe (recipeText pagesYaml : Str) : Str :=
  if containsB (strL "#__LVGL_PAGES__") recipeText then
    replaceAll (strL "#__LVGL_PAGES__") (rstripW pagesYaml) recipeText
  else rstripW recipeText ++ strL "\n\n" ++ pagesYaml

/-- `_compile_scripts` (views.py:343-375). -/
def compileScripts (p : Project) : Str :=
  if p.scripts.isEmpty then []
  else
    let body := p.scripts.flatMap (fun s =>
      let sid := stripW s.id
      let eid := stripW s.entity_id
      let dir := (stripW (if s.direction.isEmpty then strL "inc" else s.direction)).map
        Char.toLower
      let step := s.step.getD ((1 : Rat) / 2)
      if sid.isEmpty || !eid.contains '.' then []
      else
        let sensor := strL "ha_num_" ++ safeId eid ++ strL "_temperature"
        let expr := strL "id(" ++ sensor ++ strL ").state " ++
          (if dir = strL "inc" then strL "+ " else strL "- ") ++ floatStr step ++ ['f']
        strL "  - id: " ++ sid ++ ['\n'] ++
          strL "    then:\n" ++
          strL "      - homeassistant.action:\n" ++
          strL "          action: climate.set_temperature\n" ++
          strL "          data:\n" ++
          strL "            entity_id: " ++ jsonQuote eid ++ ['\n'] ++
          strL "            temperature: !lambda 'return " ++ expr ++ strL ";'\n")
    if body.isEmpty then [] else rstripW (strL "script:\n" ++ body) ++ ['\n']

def bomChar : Char := Char.ofNat 0xfeff

def stripBom (ln : Str) : Str :=
  match ln with
  | c :: t => if c = bomChar then t else ln
  | [] => []

/-- `re.match(r"^(?:﻿)?\s*esphome:", line)`. -/
def matchEsphomeStart (ln : Str) : Bool :=
  isPreB (strL "esphome:") ((stripBom ln).dropWhile isPySpace)

/-- The scan predicate of the block-start loop (views.py:383-390). -/
def esphomeStartLine (ln : Str) : Bool :=
  let st := stripW ln
  !st.isEmpty && !(isPreB ['#'] st) && matchEsphomeStart ln

/-- Next top-level key test (views.py:394-403). -/
def isTopLevelKeyLine (ln : Str) : Bool :=
  let st := stripW ln
  !st.isEmpty && !(isPreB ['#'] st) &&
    (match ln with
     | [] => true
     | c :: _ => !isPySpace c) &&
    ln.contains ':'

/-- `_split_esphome_block` (views.py:378-406). -/
def splitEsphomeBlock (recipeText : Str) : Str × Str :=
  let lines := splitLines recipeText
  match lines.findIdx? esphomeStartLine with
  | none => ([], recipeText)
  | some i =>
    let after := lines.drop (i + 1)
    let j := (after.findIdx? isTopLevelKeyLine).getD after.length
    (joinNl ((lines.drop i).take (1 + j)), stripW (joinNl (lines.drop (i + 1 + j))))

/-- `_default_wifi_yaml` (views.py:409-418). -/
def defaultWifiYaml : Str :=
  strL "wifi:\n  networks:\n    - ssid: !secret wifi_ssid\n      password: !secret wifi_password\n  ap:\n    ssid: \"Fallback\"\n    password: \"12345678\"\n"

/-- `_default_ota_yaml` (views.py:421-425). -/
def defaultOtaYaml : Str := strL "ota:\n  - platform: esphome\n"

def markerToken (name : Str) : Str := strL "#__" ++ name ++ strL "__"

/-- `repl` helper of `_apply_user_injection`. -/
def replMarker (text name payload : Str) : Str :=
  if containsB (markerToken name) text then
    replaceAll (markerToken name) (rstripW payload) text
  else text

/-- `_apply_user_injection` (views.py:428-462). -/
def applyUserInjection (recipeText : Str) (p : Project) : Str :=
  let pre := p.advanced.yaml_pre
  let post := p.advanced.yaml_post
  let rt1 :=
    if !pre.isEmpty then
      let t := replMarker recipeText (strL "USER_YAML_PRE") pre
      if !containsB (markerToken (strL "USER_YAML_PRE")) t then
        rstripW pre ++ strL "\n\n" ++ t
      else t
    else replaceAll (markerToken (strL "USER_YAML_PRE")) [] recipeText
  let rt2 :=
    if !post.isEmpty then
      let t := replMarker rt1 (strL "USER_YAML_POST") post
      if !containsB (markerToken (strL "USER_YAML_POST")) t then
        rstripW t ++ strL "\n\n" ++ rstripW post ++ ['\n']
      else t
    else replaceAll (markerToken (strL "USER_YAML_POST")) [] rt1
  p.advanced.markers.foldl
    (fun t km => if km.1.isEmpty then t else replMarker t km.1 km.2) rt2

/-- `_compile_assets` (views.py:464-494). -/
def compileAssets (p : Project) : Str :=
  let collected : List (Str × Str) := p.pages.flatMap (fun pg =>
    pg.widgets.filterMap (fun w =>
      if w.type = strL "image" ∨ w.type = strL "image_button" then
        let src := stripW
          (match alistLookup (strL "src") w.props with
           | some v => if valueTruthy v then pyStr v else []
           | none => [])
        if isPreB (strL "asset:") src then
          let fn := stripW (src.drop 6)
          if !fn.isEmpty then some (strL "asset_" ++ safeId fn, fn) else none
        else none
      else none))
  let assets := collected.foldl (fun m kv => alistSet m kv.1 kv.2) []
  if assets.isEmpty then []
  else
    let sortedA := List.insertionSort
      (fun a b : Str × Str => (strLtB a.1 b.1 || a.1 == b.1) = true) assets
    strL "image:\n" ++ sortedA.flatMap (fun kv =>
      strL "  - file: /config/esphome_touch_designer_assets/" ++ kv.2 ++ ['\n'] ++
        strL "    id: " ++ kv.1 ++ ['\n'])

/-- `re.sub(r"[^a-zA-Z0-9_]+", "_", s)`: replace each run of bad characters by
one underscore. -/
def subBadRuns : Str → Str
  | [] => []
  | [c] => if charIsIdent c then [c] else ['_']
  | c1 :: c2 :: t =>
    if !charIsIdent c1 && !charIsIdent c2 then subBadRuns (c2 :: t)
    else (if charIsIdent c1 then c1 else '_') :: subBadRuns (c2 :: t)

/-- `pathlib.Path(fn).stem` (POSIX). -/
def pathStem (fn : Str) : Str :=
  let name := (fn.reverse.takeWhile (· ≠ '/')).reverse
  match name.reverse.findIdx? (· == '.') with
  | some r =>
    let i := name.length - 1 - r
    if 0 < i ∧ i < name.length - 1 then name.take i else name
  | none => name

/-- Python `int(s)` on an already-stripped string (sign + decimal digits). -/
def parseInt (s : Str) : Option Int :=
  let core : Str → Option Nat := fun ds =>
    if ds.isEmpty || !ds.all (fun c => '0' ≤ c && c ≤ '9') then none
    else some (ds.foldl (fun acc c => acc * 10 + (c.toNat - 48)) 0)
  match s with
  | '-' :: ds => (core ds).map (fun n => -(n : Int))
  | '+' :: ds => (core ds).map (fun n => (n : Int))
  | ds => (core ds).map (fun n => (n : Int))

/-- The `(filename, size)` key a widget's font descriptor contributes
(`scan_widget`, views.py:691-709). -/
def fontKeyOfWidget (w : Widget) : Option (Str × Int) :=
  match alistLookup (strL "font") w.props with
  | some (.str f0) =>
    let f := stripW f0
    if isPreB (strL "asset:") f then
      let rest := f.drop 6
      match rest.reverse.findIdx? (· == ':') with
      | none => none
      | some r =>
        let cut := rest.length - 1 - r
        let filename := stripW (rest.take cut)
        let sizeS := stripW (rest.drop (cut + 1))
        match parseInt sizeS with
        | none => none
        | some size =>
          if filename.isEmpty || size ≤ 0 then none else some (filename, size)
    else none
  | _ => none

def fontPairLe (a b : Str × Int) : Prop :=
  (strLtB a.1 b.1 || (a.1 == b.1 && decide (a.2 ≤ b.2))) = true

instance : DecidableRel fontPairLe := fun a b => by
  unfold fontPairLe
  infer_instance

def fontLinesAux : Nat → List (Str × Int) → Str × List (Str × Str)
  | _, [] => ([], [])
  | idx, (fn, size) :: rest =>
    let safe := subBadRuns (pathStem fn)
    let fid := strL "font_" ++ safe ++ '_' :: strL (toString size) ++ '_' ::
      strL (toString idx)
    let (linesR, mapR) := fontLinesAux (idx + 1) rest
    (strL "  - file: /config/esphome_touch_designer_assets/" ++ fn ++ ['\n'] ++
       strL "    id: " ++ fid ++ ['\n'] ++
       strL "    size: " ++ strL (toString size) ++ ['\n'] ++ linesR,
     (strL "asset:" ++ fn ++ ':' :: strL (toString size), fid) :: mapR)

/-- `_compile_fonts_from_project` (views.py:679-732). -/
def compileFontsFromProject (p : Project) : Str × List (Str × Str) :=
  let used := (p.pages.flatMap (fun pg => pg.widgets.filterMap fontKeyOfWidget)).dedup
  if used.isEmpty then ([], [])
  else
    let (lines, fmap) := fontLinesAux 1 (List.insertionSort fontPairLe used)
    (strL "font:\n" ++ lines, fmap)

def rewriteWidgetFont (fmap : List (Str × Str)) (w : Widget) : Widget :=
  match alistLookup (strL "font") w.props with
  | some (.str f) =>
    (match alistLookup (stripW f) fmap with
     | some fid => { w with props := alistSet w.props (strL "font") (.str fid) }
     | none => w)
  | _ => w

/-- `_rewrite_widget_font_references` (views.py:735-747). -/
def rewriteWidgetFontReferences (p : Project) (fmap : List (Str × Str)) : Project :=
  { p with pages := p.pages.map (fun pg =>
      { pg with widgets := pg.widgets.map (rewriteWidgetFont fmap) }) }

/-- Models the widget-schema store read by `_load_widget_schema` (one JSON file
per widget type under `schemas/widgets/`). -/
abbrev SchemaEnv := Str → Option Schema

/-- Re-indentation of a schema-emitted widget: the fixed 8-space indent is
replaced by the requested one (views.py:1015-1025). -/
def reindentWidget (indent : Str) (raw : Str) : Str :=
  (splitLines raw).flatMap (fun ln =>
    (if isPreB (strL "        ") ln then indent ++ ln.drop 8 else indent ++ ln) ++ ['\n'])

/-- `emit_widget` (views.py:1009-1046); fuel bounds the nesting depth, which the
source leaves unbounded (a cyclic `parent_id` graph recurses forever there —
the spec calls that behavior undefined). -/
def emitWidgetTree (env : SchemaEnv) (abs : List ActionBinding) (ws : List Widget) :
    Nat → Widget → Str → Str
  | 0, _, _ => []
  | fuel + 1, w, indent =>
    let abList := abs.filter (fun ab =>
      let k := stripW ab.widget_id
      !k.isEmpty && k == w.id)
    let schema := if w.type.isEmpty then none else env w.type
    let base :=
      match schema with
      | some sch => reindentWidget indent (emitWidgetFromSchema w sch abList)
      | none =>
        let wid := if w.id.isEmpty then strL "w" else w.id
        indent ++ strL "- container:\n" ++
          indent ++ strL "  id: " ++ wid ++ ['\n'] ++
          indent ++ strL "  x: " ++ intStr (w.x.getD 0) ++ ['\n'] ++
          indent ++ strL "  y: " ++ intStr (w.y.getD 0) ++ ['\n'] ++
          indent ++ strL "  width: " ++ intStr (w.w.getD 100) ++ ['\n'] ++
          indent ++ strL "  height: " ++ intStr (w.h.getD 50) ++ ['\n']
    let kidsList := ws.filter (fun c => !c.parent_id.isEmpty && c.parent_id = w.id)
    base ++
      (if kidsList.isEmpty then []
       else
         indent ++ strL "  widgets:\n" ++
           kidsList.flatMap (fun c =>
             emitWidgetTree env abs ws fuel c (indent ++ strL "    ")))

/-- `_compile_lvgl_pages_schema_driven` (views.py:979-1067). -/
def compileLvglPagesSchemaDriven (env : SchemaEnv) (p : Project) : Str :=
  let pages := if p.pages.isEmpty then [⟨strL "main", [], strL "Main", []⟩] else p.pages
  strL "  pages:\n" ++ pages.flatMap (fun pg =>
    let pid :=
      if !pg.page_id.isEmpty then pg.page_id
      else if !pg.legacy_id.isEmpty then pg.legacy_id
      else strL "main"
    strL "    - id: " ++ pid ++ ['\n'] ++
      (if !pg.name.isEmpty then
        strL "      name: " ++ yamlQuote (.str pg.name) ++ ['\n']
      else []) ++
      strL "      widgets:\n" ++
      (pg.widgets.filter (fun w => w.parent_id.isEmpty)).flatMap (fun w =>
        emitWidgetTree env p.action_bindings pg.widgets pg.widgets.length w
          (strL "        ")))

/-- `has_top_level_key` (views.py:635-637). -/
def hasTopLevelKey (text : Str) (key : Str) : Bool :=
  containsB ('\n' :: key ++ [':']) ('\n' :: text) ||
    isPreB (key ++ [':']) (stripW text)

def etdPlaceholder : Str := strL "__ETD_DEVICE_NAME__"

def namePlaceholderLine : Str := strL "  name: " ++ etdPlaceholder

/-- `^  name\s*:` match (views.py:628). -/
def isNameLine (ln : Str) : Bool :=
  isPreB (strL "  name") ln && isPreB [':'] ((ln.drop 6).dropWhile isPySpace)

/-- One line of `rest` that the `(?m)^((?:﻿)?\s*esphome:\s*(?:#.*)?)\r?\n`
substitution matches (the trailing newline exists for every non-final line). -/
def esphomeHeaderLine (ln : Str) : Bool :=
  let l1 := (stripBom ln).dropWhile isPySpace
  isPreB (strL "esphome:") l1 &&
    (let r := (l1.drop 8).dropWhile isPySpace
     r.isEmpty || isPreB ['#'] r)

/-- Insert the placeholder name line under the first `esphome:` header line
(count=1 substitution; the final line cannot match for lack of a newline). -/
def insertNameAfterEsphome : List Str → List Str
  | [] => []
  | [ln] => [ln]
  | ln :: rest =>
    if esphomeHeaderLine ln then ln :: namePlaceholderLine :: rest
    else ln :: insertNameAfterEsphome rest

def lstripBomSpaceTab (s : Str) : Str :=
  s.dropWhile (fun c => c = bomChar || c = ' ' || c = '\t')

/-- The esphome-block normalization of `compile_to_esphome_yaml`
(views.py:609-632), returning the adjusted (block, rest). -/
def normalizeEsphomeBlock (esb rest : Str) : Str × Str :=
  if (stripW esb).isEmpty && !containsB (strL "esphome:") rest then
    (strL "esphome:\n" ++ namePlaceholderLine ++ ['\n'], rest)
  else if (stripW esb).isEmpty && containsB (strL "esphome:") rest then
    (esb, joinNl (insertNameAfterEsphome (splitLines rest)))
  else
    match splitLines esb with
    | [] => (strL "esphome:\n" ++ namePlaceholderLine ++ ['\n'], rest)
    | first :: restLines =>
      let restLines' := restLines.filter (fun ln => !isNameLine ln)
      let first' :=
        let f := lstripBomSpaceTab first
        if f.isEmpty then strL "esphome:"
        else if isPreB (strL "esphome:") f then strL "esphome:" else f
      (first' ++ '\n' :: namePlaceholderLine ++ '\n' :: joinNl restLines' ++
        (if restLines'.isEmpty then [] else ['\n']), rest)

/-- Everything `compile_to_esphome_yaml` (views.py:559-673) assembles before the
final placeholder substitution. -/
def assembleOut (env : SchemaEnv) (ver : Str) (dev : DeviceProject) (recipeText : Str) :
    Str :=
  let project := dev.project
  let assetsYaml := compileAssets project
  let haBindingsYaml := compileHaBindings project
  let scriptsYaml0 := compileScripts project
  let (fontsYaml, fmap) := compileFontsFromProject project
  let project1 := if fmap.isEmpty then project else rewriteWidgetFontReferences project fmap
  let pagesYaml := compileLvglPagesSchemaDriven env project1
  let locksYaml := compileUiLockGlobals project1
  let rt1 := applyUserInjection recipeText project1
  let rt2 :=
    if containsB (strL "#__HA_BINDINGS__") rt1 then
      replaceAll (strL "#__HA_BINDINGS__") (rstripW haBindingsYaml) rt1
    else if !(stripW haBindingsYaml).isEmpty then
      rstripW rt1 ++ strL "\n\n" ++ rstripW haBindingsYaml ++ ['\n']
    else rt1
  let merged := injectPagesIntoRecipe rt2 pagesYaml
  let scriptsYaml :=
    if containsB (strL "manage_run_and_sleep") merged &&
        !containsB (strL "id: manage_run_and_sleep") scriptsYaml0 &&
        !containsB (strL "id: manage_run_and_sleep") merged then
      let stub := strL "  - id: manage_run_and_sleep\n    then:\n      - delay: 1ms\n"
      if !(stripW scriptsYaml0).isEmpty then
        rstripW scriptsYaml0 ++ '\n' :: rstripW stub ++ ['\n']
      else strL "script:\n" ++ stub
    else scriptsYaml0
  let (esb0, rest0) := splitEsphomeBlock merged
  let (esb, rest) := normalizeEsphomeBlock esb0 rest0
  let wifiYaml := if !hasTopLevelKey rest (strL "wifi") then defaultWifiYaml else []
  let otaYaml := if !hasTopLevelKey rest (strL "ota") then defaultOtaYaml else []
  let header := strL "---\n" ++
    strL "# Generated by esphome_touch_designer v" ++ ver ++ ['\n'] ++
    strL "# device_id: " ++ dev.device_id ++ ['\n'] ++
    strL "# slug: " ++ dev.slug ++ ['\n'] ++ ['\n']
  header ++
    (if !(stripW esb).isEmpty then rstripW esb ++ strL "\n\n" else []) ++
    (match dev.api_key with
     | some k =>
       if !(stripW k).isEmpty then
         strL "api:\n  encryption:\n    key: " ++ jsonQuote (stripW k) ++ strL "\n\n"
       else []
     | none => []) ++
    (if !wifiYaml.isEmpty then rstripW wifiYaml ++ strL "\n\n" else []) ++
    (if !otaYaml.isEmpty then rstripW otaYaml ++ strL "\n\n" else []) ++
    rest ++ strL "\n\n" ++
    (if !(stripW locksYaml).isEmpty then rstripW locksYaml ++ strL "\n\n" else []) ++
    (if !(stripW scriptsYaml).isEmpty then rstripW scriptsYaml ++ strL "\n\n" else []) ++
    (if !(stripW fontsYaml).isEmpty then rstripW fontsYaml ++ strL "\n\n" else []) ++
    (if !(stripW assetsYaml).isEmpty then rstripW assetsYaml ++ ['\n'] else [])

/-- `compile_to_esphome_yaml` (views.py:559-676) for a supplied recipe text;
the schema store and integration version are explicit parameters (the source
reads them from disk). -/
def compileToEsphomeYaml (env : SchemaEnv) (ver : Str) (dev : DeviceProject)
    (recipeText : Str) : Str :=
  replaceAll etdPlaceholder
    (jsonQuote (if dev.slug.isEmpty then strL "device" else dev.slug))
    (assembleOut env ver dev recipeText)

/-! ### C1: determinism of the compiler -/

/-- C1: the compiler is a pure function of (device record, recipe text) — with
the schema store contents and integration version fixed, two compiles of the
same inputs produce byte-identical output. -/
theorem claim1_compile_deterministic (env : SchemaEnv) (ver : Str) (dev : DeviceProject)
    (recipeText : Str) :
    compileToEsphomeYaml env ver dev recipeText =
      compileToEsphomeYaml env ver dev recipeText := rfl

/-! ### C2: placeholder closure -/

theorem isPreB_iff {n s : Str} : isPreB n s = true ↔ ∃ r, s = n ++ r := by
  induction n generalizing s with
  | nil => simp [isPreB]
  | cons c t ih =>
    cases s with
    | nil =>
      simp [isPreB]
    | cons d u =>
      simp only [isPreB, Bool.and_eq_true, beq_iff_eq, ih, List.cons_append,
        List.cons.injEq]
      constructor
      · rintro ⟨hdc, r, hr⟩
        exact ⟨r, hdc.symm, hr⟩
      · rintro ⟨r, hdc, hr⟩
        exact ⟨hdc.symm, r, hr⟩

theorem containsB_iff_occurs {n s : Str} :
    containsB n s = true ↔ ∃ t1 t2, s = t1 ++ n ++ t2 := by
  induction s with
  | nil =>
    simp only [containsB]
    constructor
    · intro h
      rcases isPreB_iff.mp h with ⟨r, hr⟩
      exact ⟨[], r, by simpa using hr⟩
    · rintro ⟨t1, t2, h⟩
      have h1 : t1 = [] ∧ n ++ t2 = [] := by
        have := h.symm
        simpa [List.append_eq_nil] using this
      have h2 : n = [] := by
        have := h1.2
        exact (by simpa [List.append_eq_nil] using this : n = [] ∧ t2 = []).1
      simp [h2, isPreB]
  | cons c u ih =>
    simp only [containsB, Bool.or_eq_true, ih]
    constructor
    · rintro (h | ⟨t1, t2, h⟩)
      · rcases isPreB_iff.mp h with ⟨r, hr⟩
        exact ⟨[], r, by simpa using hr⟩
      · exact ⟨c :: t1, t2, by simp [h]⟩
    · rintro ⟨t1, t2, h⟩
      cases t1 with
      | nil =>
        left
        exact isPreB_iff.mpr ⟨t2, by simpa using h⟩
      | cons d t1' =>
        right
        refine ⟨t1', t2, ?_⟩
        have := h
        simp only [List.cons_append, List.cons.injEq] at this
        exact this.2

theorem mem_of_containsB {n s : Str} (h : containsB n s = true) {c : Char} (hc : c ∈ n) :
    c ∈ s := by
  rcases containsB_iff_occurs.mp h with ⟨t1, t2, rfl⟩
  simp [hc]

theorem isPreB_append_split {m a b : Str} (h : isPreB m (a ++ b) = true) :
    isPreB m a = true ∨ ∃ m2, m = a ++ m2 ∧ isPreB m2 b = true := by
  induction a generalizing m with
  | nil => exact Or.inr ⟨m, rfl, h⟩
  | cons c a' ih =>
    cases m with
    | nil => exact Or.inl rfl
    | cons d m' =>
      simp only [List.cons_append, isPreB, Bool.and_eq_true, beq_iff_eq] at h ⊢
      rcases ih h.2 with h' | ⟨m2, hm2, hp⟩
      · exact Or.inl ⟨h.1, h'⟩
      · exact Or.inr ⟨m2, by simp [h.1, hm2], hp⟩

theorem occurs_append_cases {n a b : Str} (h : containsB n (a ++ b) = true) :
    containsB n a = true ∨ containsB n b = true ∨
      ∃ k a1, 0 < k ∧ k < n.length ∧ a = a1 ++ n.take k ∧ isPreB (n.drop k) b = true := by
  induction a with
  | nil => exact Or.inr (Or.inl h)
  | cons c a' ih =>
    rw [List.cons_append] at h
    simp only [containsB, Bool.or_eq_true] at h
    rcases h with h | h
    · rw [show c :: (a' ++ b) = (c :: a') ++ b from rfl] at h
      rcases isPreB_append_split h with h' | ⟨m2, hm2, hp⟩
      · exact Or.inl (containsB_of_isPreB h')
      · cases m2 with
        | nil =>
          rw [List.append_nil] at hm2
          subst hm2
          exact Or.inl (containsB_self _)
        | cons e m2' =>
          refine Or.inr (Or.inr ⟨(c :: a').length, [], by simp, ?_, ?_, ?_⟩)
          · rw [hm2]
            simp
          · rw [hm2, List.take_left]
            simp
          · rw [hm2, List.drop_left]
            exact hp
    · rcases ih h with h' | h' | ⟨k, a1, hk0, hkn, ha, hp⟩
      · exact Or.inl (by simp [containsB, h'])
      · exact Or.inr (Or.inl h')
      · exact Or.inr (Or.inr ⟨k, c :: a1, hk0, hkn, by simp [ha], hp⟩)

/-- Characters that can appear in a non-identity `json.dumps` escape sequence. -/
def escAlphabet : Str := strL "\\\"ntrbfu0123456789abcdef"

theorem hexDigit_mem_alpha (n : Nat) : hexDigit n ∈ escAlphabet := by
  unfold hexDigit
  split <;> decide

theorem mem_alpha_of_hex4 {c : Char} {n : Nat} (h : c ∈ hex4 n) : c ∈ escAlphabet := by
  simp only [hex4, List.mem_cons, List.not_mem_nil, or_false] at h
  rcases h with rfl | rfl | rfl | rfl <;> exact hexDigit_mem_alpha _

theorem jsonEscChar_ne_nil (c : Char) : jsonEscChar c ≠ [] := by
  intro h
  unfold jsonEscChar at h
  repeat' split at h
  all_goals simp at h

theorem jsonEscChar_plain_or_alpha (d : Char) :
    jsonEscChar d = [d] ∨ ∀ c ∈ jsonEscChar d, c ∈ escAlphabet := by
  unfold jsonEscChar
  by_cases h1 : d = '"'
  · simp only [if_pos h1]
    exact Or.inr (by intro c hc; simp only [List.mem_cons, List.not_mem_nil, or_false] at hc; rcases hc with rfl | rfl <;> decide)
  · simp only [if_neg h1]
    by_cases h2 : d = '\\'
    · simp only [if_pos h2]
      exact Or.inr (by intro c hc; simp only [List.mem_cons, List.not_mem_nil, or_false] at hc; rcases hc with rfl | rfl <;> decide)
    · simp only [if_neg h2]
      by_cases h3 : d = '\n'
      · simp only [if_pos h3]
        exact Or.inr (by intro c hc; simp only [List.mem_cons, List.not_mem_nil, or_false] at hc; rcases hc with rfl | rfl <;> decide)
      · simp only [if_neg h3]
        by_cases h4 : d = '\t'
        · simp only [if_pos h4]
          exact Or.inr (by intro c hc; simp only [List.mem_cons, List.not_mem_nil, or_false] at hc; rcases hc with rfl | rfl <;> decide)
        · simp only [if_neg h4]
          by_cases h5 : d = '\r'
          · simp only [if_pos h5]
            exact Or.inr (by intro c hc; simp only [List.mem_cons, List.not_mem_nil, or_false] at hc; rcases hc with rfl | rfl <;> decide)
          · simp only [if_neg h5]
            by_cases h6 : d = Char.ofNat 8
            · simp only [if_pos h6]
              exact Or.inr (by intro c hc; simp only [List.mem_cons, List.not_mem_nil, or_false] at hc; rcases hc with rfl | rfl <;> decide)
            · simp only [if_neg h6]
              by_cases h7 : d = Char.ofNat 12
              · simp only [if_pos h7]
                exact Or.inr (by intro c hc; simp only [List.mem_cons, List.not_mem_nil, or_false] at hc; rcases hc with rfl | rfl <;> decide)
              · simp only [if_neg h7]
                by_cases h8 : (32 ≤ d.toNat && d.toNat ≤ 126) = true
                · simp only [if_pos h8]
                  exact Or.inl trivial
                · simp only [if_neg h8]
                  by_cases h9 : d.toNat ≤ 0xffff
                  · simp only [if_pos h9]
                    refine Or.inr (fun c hc => ?_)
                    simp only [List.mem_cons] at hc
                    rcases hc with rfl | rfl | hc
                    · decide
                    · decide
                    · exact mem_alpha_of_hex4 hc
                  · simp only [if_neg h9]
                    refine Or.inr (fun c hc => ?_)
                    simp only [List.cons_append, List.mem_cons, List.mem_append] at hc
                    rcases hc with rfl | rfl | hc | rfl | rfl | hc
                    · decide
                    · decide
                    · exact mem_alpha_of_hex4 hc
                    · decide
                    · decide
                    · exact mem_alpha_of_hex4 hc

theorem flatMapEsc_isPre_transfer :
    ∀ (s m : Str), (∀ c ∈ m, jsonEscChar c = [c]) → (∀ c ∈ m, c ∉ escAlphabet) →
      isPreB m (s.flatMap jsonEscChar) = true → isPreB m s = true := by
  intro s
  induction s with
  | nil =>
    intro m _ _ h
    simp only [List.flatMap_nil] at h
    exact h
  | cons d s' ih =>
    intro m hp ha h
    cases m with
    | nil => rfl
    | cons c m' =>
      rw [List.flatMap_cons] at h
      rcases jsonEscChar_plain_or_alpha d with hd | hd
      · rw [hd, List.singleton_append] at h
        simp only [isPreB, Bool.and_eq_true] at h ⊢
        refine ⟨h.1, ih m' (fun x hx => hp x (List.mem_cons_of_mem c hx))
          (fun x hx => ha x (List.mem_cons_of_mem c hx)) h.2⟩
      · exfalso
        rcases hne : jsonEscChar d with _ | ⟨e, es⟩
        · exact jsonEscChar_ne_nil d hne
        · rw [hne, List.cons_append] at h
          simp only [isPreB, Bool.and_eq_true, beq_iff_eq] at h
          exact ha c (List.mem_cons_self c m') (h.1 ▸ hd e (hne ▸ List.mem_cons_self e es))

theorem flatMapEsc_contains_transfer :
    ∀ (s m : Str), m ≠ [] → (∀ c ∈ m, jsonEscChar c = [c]) → (∀ c ∈ m, c ∉ escAlphabet) →
      containsB m (s.flatMap jsonEscChar) = true → containsB m s = true := by
  intro s
  induction s with
  | nil =>
    intro m hne _ _ h
    cases m with
    | nil => exact absurd rfl hne
    | cons c m' => simp [containsB, isPreB] at h
  | cons d s' ih =>
    intro m hne hp ha h
    rw [List.flatMap_cons] at h
    rcases occurs_append_cases h with hB | hrest | ⟨k, a1, hk0, hkn, haB, hpre⟩
    · rcases jsonEscChar_plain_or_alpha d with hd | hd
      · rw [hd] at hB
        rcases containsB_iff_occurs.mp hB with ⟨t1, t2, ht⟩
        have hm : m = [d] := by
          cases t1 with
          | nil =>
            cases m with
            | nil => exact absurd rfl hne
            | cons c m' =>
              simp only [List.nil_append, List.cons_append, List.cons.injEq] at ht
              cases m' with
              | nil => simp [ht.1]
              | cons c2 m'' => simp at ht
          | cons x xs =>
            simp only [List.cons_append, List.cons.injEq] at ht
            have hnil := ht.2
            rw [List.append_assoc] at hnil
            rcases List.append_eq_nil.mp hnil.symm with ⟨-, hmt⟩
            rcases List.append_eq_nil.mp hmt with ⟨hm0, -⟩
            exact absurd hm0 hne
        rw [hm]
        exact containsB_of_isPreB (by simp [isPreB])
      · exfalso
        cases m with
        | nil => exact absurd rfl hne
        | cons c m' =>
          exact ha c (List.mem_cons_self c m')
            (hd c (mem_of_containsB hB (List.mem_cons_self c m')))
    · exact Bool.or_eq_true _ _ ▸ Or.inr (ih m hne hp ha hrest)
    · rcases jsonEscChar_plain_or_alpha d with hd | hd
      · rw [hd] at haB
        have hk1 : k = 1 ∧ a1 = [] := by
          have hlen := congrArg List.length haB
          simp [List.length_take] at hlen
          constructor
          · omega
          · cases a1 with
            | nil => rfl
            | cons x xs => simp at hlen; omega
        obtain ⟨rfl, rfl⟩ := hk1
        cases m with
        | nil => exact absurd rfl hne
        | cons c m' =>
          simp only [List.nil_append, List.take, List.cons.injEq] at haB
          have hcd : c = d := haB.1.symm
          have htail : isPreB m' s' = true :=
            flatMapEsc_isPre_transfer s' m' (fun x hx => hp x (List.mem_cons_of_mem c hx))
              (fun x hx => ha x (List.mem_cons_of_mem c hx)) (by simpa using hpre)
          have : isPreB (c :: m') (d :: s') = true := by
            simp [isPreB, hcd, htail]
          simpa [containsB] using Or.inl this
      · exfalso
        cases m with
        | nil => exact absurd rfl hne
        | cons c m' =>
          have hcm : c ∈ (c :: m').take k := by
            cases k with
            | zero => omega
            | succ k' => simp [List.take]
          have : c ∈ jsonEscChar d := by
            rw [haB]
            exact List.mem_append_right a1 hcm
          exact ha c (List.mem_cons_self c m') (hd c this)

theorem jsonQuote_no_needle {m : Str} (hne : m ≠ []) (hq : '"' ∉ m)
    (hp : ∀ c ∈ m, jsonEscChar c = [c]) (ha : ∀ c ∈ m, c ∉ escAlphabet)
    {s : Str} (hs : containsB m s = false) : containsB m (jsonQuote s) = false := by
  by_contra hcon
  rw [Bool.not_eq_false] at hcon
  unfold jsonQuote at hcon
  cases m with
  | nil => exact absurd rfl hne
  | cons c m' =>
    simp only [containsB, Bool.or_eq_true] at hcon
    rcases hcon with hcon | hcon
    · simp only [isPreB, Bool.and_eq_true, beq_iff_eq] at hcon
      exact hq (hcon.1 ▸ List.mem_cons_self c m')
    · rcases occurs_append_cases hcon with hfl | hqq | ⟨k, a1, hk0, hkn, haB, hpre⟩
      · have := flatMapEsc_contains_transfer s (c :: m') hne hp ha hfl
        rw [hs] at this
        exact absurd this (by simp)
      · have := mem_of_containsB hqq (List.mem_cons_self c m')
        simp only [List.mem_cons, List.not_mem_nil, or_false] at this
        exact hq (this ▸ List.mem_cons_self c m')
      · rcases hdk : (c :: m').drop k with _ | ⟨e, t⟩
        · have := congrArg List.length hdk
          simp only [List.length_drop, List.length_cons, List.length_nil] at this
          simp only [List.length_cons] at hkn
          omega
        · rw [hdk] at hpre
          simp only [isPreB, Bool.and_eq_true, beq_iff_eq] at hpre
          have he : e ∈ (c :: m') := by
            have : e ∈ (c :: m').drop k := by
              rw [hdk]
              exact List.mem_cons_self e t
            exact List.drop_subset k _ this
          exact hq (hpre.1 ▸ he)

theorem replaceAllF_isPre_transfer (n mid : Str) :
    ∀ (fuel : Nat) (t m : Str), t.length ≤ fuel → '"' ∉ m →
      isPreB m (replaceAllF n ('"' :: mid) fuel t) = true → isPreB m t = true := by
  intro fuel
  induction fuel with
  | zero =>
    intro t m ht _ h
    cases t with
    | nil => exact h
    | cons c t' => simp at ht
  | succ fuel ih =>
    intro t m ht hq h
    cases t with
    | nil => exact h
    | cons c t' =>
      rw [replaceAllF] at h
      by_cases hp : isPreB n (c :: t') = true
      · rw [if_pos hp] at h
        cases m with
        | nil => rfl
        | cons c0 m' =>
          simp only [List.cons_append, isPreB, Bool.and_eq_true, beq_iff_eq] at h
          exact absurd (h.1 ▸ List.mem_cons_self c0 m') hq
      · rw [if_neg hp] at h
        cases m with
        | nil => rfl
        | cons c0 m' =>
          simp only [isPreB, Bool.and_eq_true] at h ⊢
          refine ⟨h.1, ih t' m' ?_ (fun hx => hq (List.mem_cons_of_mem c0 hx)) h.2⟩
          simp only [List.length_cons] at ht
          omega

theorem replaceAllF_no_needle {n r mid mid2 : Str} (hne : n ≠ []) (hq : '"' ∉ n)
    (hr1 : r = '"' :: mid) (hr2 : r = mid2 ++ ['"']) (hcr : containsB n r = false) :
    ∀ (fuel : Nat) (t : Str), t.length ≤ fuel →
      containsB n (replaceAllF n r fuel t) = false := by
  intro fuel
  induction fuel with
  | zero =>
    intro t ht
    cases t with
    | nil =>
      cases n with
      | nil => exact absurd rfl hne
      | cons c n' => rfl
    | cons c t' => simp at ht
  | succ fuel ih =>
    intro t ht
    cases t with
    | nil =>
      cases n with
      | nil => exact absurd rfl hne
      | cons c n' => rfl
    | cons c t'
    =>
      rw [replaceAllF]
      by_cases hp : isPreB n (c :: t') = true
      · rw [if_pos hp]
        by_contra hcon
        rw [Bool.not_eq_false] at hcon
        rcases occurs_append_cases hcon with hinr | hinrest | ⟨k, a1, hk0, hkn, haB, hpre⟩
        · rw [hcr] at hinr
          exact absurd hinr (by simp)
        · have hlen : ((c :: t').drop n.length).length ≤ fuel := by
            have hnl : 1 ≤ n.length := by
              cases n with
              | nil => exact absurd rfl hne
              | cons a b => simp
            simp only [List.length_drop, List.length_cons] at *
            omega
          have := ih _ hlen
          rw [this] at hinrest
          exact absurd hinrest (by simp)
        · have hq2 : '"' ∈ n.take k := by
            have hEq : mid2 ++ ['"'] = a1 ++ n.take k := hr2 ▸ haB
            have hrev := congrArg List.reverse hEq
            simp only [List.reverse_append, List.reverse_cons, List.reverse_nil,
              List.nil_append, List.cons_append, List.singleton_append] at hrev
            rcases htk : (n.take k).reverse with _ | ⟨e, tr⟩
            · have : (n.take k).length = 0 := by
                rw [← List.length_reverse, htk]
                rfl
              simp only [List.length_take] at this
              omega
            · rw [htk] at hrev
              simp only [List.cons_append, List.cons.injEq] at hrev
              have he : e = '"' := hrev.1.symm
              have : e ∈ (n.take k).reverse := htk ▸ List.mem_cons_self e tr
              rw [List.mem_reverse] at this
              exact he ▸ this
          exact hq (List.take_subset k n hq2)
      · rw [if_neg hp]
        have hrest := ih t' (by simp only [List.length_cons] at ht; omega)
        rw [show containsB n (c :: replaceAllF n r fuel t') =
            (isPreB n (c :: replaceAllF n r fuel t') ||
              containsB n (replaceAllF n r fuel t')) from rfl]
        rw [hrest, Bool.or_false]
        by_contra hcon2
        rw [Bool.not_eq_false] at hcon2
        cases hn : n with
        | nil => exact absurd hn hne
        | cons c0 n' =>
          rw [hn] at hcon2
          simp only [isPreB, Bool.and_eq_true, beq_iff_eq] at hcon2
          have htr : isPreB n' t' = true := by
            have h2 := hcon2.2
            rw [hr1] at h2
            exact replaceAllF_isPre_transfer (c0 :: n') mid fuel t' n'
              (by simp only [List.length_cons] at ht; omega)
              (fun hx => hq (hn.symm ▸ List.mem_cons_of_mem c0 hx)) h2
          apply hp
          rw [hn]
          simp [isPreB, hcon2.1, htr]

/-- C2: when the device slug does not contain the reserved placeholder
`__ETD_DEVICE_NAME__`, the compiled document contains no occurrence of the
placeholder: the single global replacement at the very end of
`compile_to_esphome_yaml` substitutes every occurrence with the JSON-quoted
slug (or the quoted fallback `"device"` when the slug is empty). -/
theorem claim2_placeholder_closure (env : SchemaEnv) (ver : Str) (dev : DeviceProject)
    (recipeText : Str) (hslug : containsB etdPlaceholder dev.slug = false) :
    containsB etdPlaceholder (compileToEsphomeYaml env ver dev recipeText) = false := by
  have hne : etdPlaceholder ≠ [] := by decide
  have hq : '"' ∉ etdPlaceholder := by decide
  have hplain : ∀ c ∈ etdPlaceholder, jsonEscChar c = [c] := by decide
  have halpha : ∀ c ∈ etdPlaceholder, c ∉ escAlphabet := by decide
  have hs : containsB etdPlaceholder
      (if dev.slug.isEmpty then strL "device" else dev.slug) = false := by
    by_cases h : dev.slug.isEmpty = true
    · rw [if_pos h]
      decide
    · rw [if_neg h]
      exact hslug
  have hrepl : containsB etdPlaceholder
      (jsonQuote (if dev.slug.isEmpty then strL "device" else dev.slug)) = false :=
    jsonQuote_no_needle hne hq hplain halpha hs
  unfold compileToEsphomeYaml replaceAll
  rw [if_neg (by decide : ¬ etdPlaceholder.isEmpty = true)]
  exact @replaceAllF_no_needle etdPlaceholder
    (jsonQuote (if dev.slug.isEmpty then strL "device" else dev.slug))
    ((if dev.slug.isEmpty then strL "device" else dev.slug).flatMap jsonEscChar ++ ['"'])
    ('"' :: (if dev.slug.isEmpty then strL "device" else dev.slug).flatMap jsonEscChar)
    hne hq rfl rfl hrepl _ _ le_rfl

def dev2W : DeviceProject :=
  { device_id := strL "dev1", slug := strL "kitchen_panel", name := strL "Kitchen Panel",
    hardware_recipe_id := none, api_key := none,
    project :=
      { pages := [], bindings := [], links := [], action_bindings := [],
        scripts := [], advanced := ⟨[], [], []⟩ } }

/-- Witness for C2 at a concrete device and recipe. -/
theorem claim2_witness :
    containsB etdPlaceholder dev2W.slug = false ∧
    containsB etdPlaceholder
      (compileToEsphomeYaml (fun _ => none) (strL "0.80.0") dev2W
        (strL "esphome:\n  name: __ETD_DEVICE_NAME__\n\nwifi:\n  ssid: x\n")) = false :=
  ⟨by decide,
   claim2_placeholder_closure (fun _ => none) (strL "0.80.0") dev2W
     (strL "esphome:\n  name: __ETD_DEVICE_NAME__\n\nwifi:\n  ssid: x\n") (by decide)⟩
